import Mathlib

set_option maxHeartbeats 1000000

/-!
Shallow embedding of the combat-tracker terminal application (src/src/app.rs).

The data model (`Creature`, `Mode`, `App`) and the event dispatcher (`step`,
embedding `App::read_events` together with `App::select_creature` and
`App::numeric_edit`) are translated directly from the Rust source.  Machine
integers (`i32`, `u32`) are modelled as `Int`/`Nat` with explicit wrapping
where the source can overflow.  A `none` result of `step` models a panic.
The `tui_textarea` widget is an external crate, not part of this repository;
its small surface used by the app is modelled from the spec and marked so.
-/

/-- Key codes distinguished by the dispatcher (crossterm `KeyCode` as used in app.rs). -/
inductive KeyCode where
  | char (c : Char)
  | enter
  | esc
  | backspace
  | otherKey
deriving DecidableEq

/-- Event kinds: the dispatcher only distinguishes `Press` from everything else. -/
inductive KeyEventKind where
  | press
  | otherKind
deriving DecidableEq

/-- Key event: key code, alt-modifier flag and kind (crossterm `KeyEvent` as used in app.rs). -/
structure KeyEvent where
  code : KeyCode
  alt : Bool
  kind : KeyEventKind
deriving DecidableEq

/-- Shorthand for a plain key press of a character key. -/
def charPress (c : Char) : KeyEvent := ⟨KeyCode.char c, false, KeyEventKind.press⟩

/-- `HealthShift` enum from app.rs: `Increase(u32) | Decrease(u32)`; the `u32`
magnitude is a `Nat` (always below `2^32` in reachable states, cast explicitly at use sites). -/
inductive HealthShift where
  | increase (mag : Nat)
  | decrease (mag : Nat)
deriving DecidableEq

/-- Magnitude of a health shift. -/
def HealthShift.mag : HealthShift → Nat
  | .increase m => m
  | .decrease m => m

/-- Replaces the magnitude of a health shift, keeping its direction (the
`Increase(ref mut mag) | Decrease(ref mut mag)` write in app.rs). -/
def HealthShift.setMag : HealthShift → Nat → HealthShift
  | .increase _, m => .increase m
  | .decrease _, m => .decrease m

/-- `Creature` struct from app.rs; `i32` fields are `Int`, wrapped where the source wraps. -/
structure Creature where
  name : String
  health : Int
  health_shift : Option HealthShift
  initiative : Int
  notes : String
  notes_cursor_pos : Nat × Nat
deriving DecidableEq

/-- `Creature::default` from app.rs. -/
def Creature.default : Creature :=
  { name := "", health := 0, health_shift := none, initiative := 0,
    notes := "", notes_cursor_pos := (0, 0) }

/-- `Mode` enum from app.rs; payload-carrying variants hold the pre-edit snapshots. -/
inductive Mode where
  | help
  | normal
  | meta (selection : Nat)
  | rename (old : String)
  | setHealth (old : Int)
  | setInitiative (old : Int)
  | healthShift
  | editNotes
  | sortMode
deriving DecidableEq

/-- Modelled from the spec: the `tui_textarea::TextArea` widget (an external crate,
not in src/) reduced to its observable state, a "multi-line buffer with cursor"
(spec section 4.4): the list of lines plus a `(row, col)` cursor. -/
structure TextArea where
  lines : List String
  cursor : Nat × Nat
deriving DecidableEq

/-- `new_text_area` from app.rs: a fresh text area over the given lines, cursor at the origin. -/
def newTextArea (lines : List String) : TextArea := ⟨lines, (0, 0)⟩

/-- Modelled from the spec: character insert at the cursor (spec section 4.4,
"character insert at cursor"); `tui_textarea` is external to the repository. -/
def taInsertChar (ta : TextArea) (c : Char) : TextArea :=
  match ta.lines[ta.cursor.1]? with
  | none => ta
  | some line =>
    let cs := line.data
    ⟨ta.lines.set ta.cursor.1 (String.mk (cs.take ta.cursor.2 ++ [c] ++ cs.drop ta.cursor.2)),
     (ta.cursor.1, ta.cursor.2 + 1)⟩

/-- Modelled from the spec: a line break splits the current line at the cursor
(spec section 4.4, "line break"); `tui_textarea` is external to the repository. -/
def taInsertNewline (ta : TextArea) : TextArea :=
  match ta.lines[ta.cursor.1]? with
  | none => ta
  | some line =>
    let cs := line.data
    ⟨ta.lines.take ta.cursor.1
       ++ [String.mk (cs.take ta.cursor.2), String.mk (cs.drop ta.cursor.2)]
       ++ ta.lines.drop (ta.cursor.1 + 1),
     (ta.cursor.1 + 1, 0)⟩

/-- Modelled from the spec: backspace deletes the character before the cursor,
joining with the previous line at column zero (spec section 4.4, "backspace"). -/
def taBackspace (ta : TextArea) : TextArea :=
  match ta.lines[ta.cursor.1]? with
  | none => ta
  | some line =>
    if 0 < ta.cursor.2 then
      let cs := line.data
      ⟨ta.lines.set ta.cursor.1 (String.mk (cs.take (ta.cursor.2 - 1) ++ cs.drop ta.cursor.2)),
       (ta.cursor.1, ta.cursor.2 - 1)⟩
    else
      match ta.cursor.1, ta.lines[ta.cursor.1 - 1]? with
      | r + 1, some prev =>
        ⟨ta.lines.take r ++ [prev ++ line] ++ ta.lines.drop (r + 2), (r, prev.length)⟩
      | _, _ => ta

/-- Modelled from the spec: `TextArea::input` key handling — printable characters
insert at the cursor, Enter breaks the line (with or without alt), Backspace
deletes; other keys and non-press kinds leave the buffer unchanged
(spec sections 4.4 and 6); `tui_textarea` is external to the repository. -/
def taInput (ta : TextArea) (ev : KeyEvent) : TextArea :=
  if ev.kind = KeyEventKind.press then
    match ev.code with
    | KeyCode.char c => taInsertChar ta c
    | KeyCode.enter => taInsertNewline ta
    | KeyCode.backspace => taBackspace ta
    | _ => ta
  else ta

/-- Modelled from the spec: `tui_textarea::CursorMove::Jump` — the cursor is
restored to the stored `(row, col)` position (spec section 3: "restored when
the creature is re-selected"). -/
def taMoveCursor (ta : TextArea) (pos : Nat × Nat) : TextArea := ⟨ta.lines, pos⟩

/-- Splits a character list at newline characters (an executable `splitOn "\n"`). -/
def splitOnNewline : List Char → List String
  | [] => [""]
  | c :: cs =>
    if c = '\n' then "" :: splitOnNewline cs
    else
      match splitOnNewline cs with
      | [] => [String.mk [c]]
      | s :: rest => String.mk (c :: s.data) :: rest

/-- `str::lines` from Rust: split on a newline, without a trailing empty segment. -/
def rustLines (s : String) : List String :=
  if s = "" then []
  else if s.data.getLast? = some '\n' then (splitOnNewline s.data).dropLast
  else splitOnNewline s.data

/-- `App` struct from app.rs. -/
structure App where
  running : Bool
  mode : Mode
  selected_creature : Option Nat
  creatures : List Creature
  text_area : TextArea
deriving DecidableEq

/-- `App::new` from app.rs. -/
def App.new (init_test_creatures : Bool) : App :=
  { running := true
    mode := Mode.normal
    selected_creature := if init_test_creatures then some 0 else none
    creatures :=
      if init_test_creatures then
        [{ Creature.default with name := "Goblin", health := 5, notes := "Very gobliny" },
         { Creature.default with name := "Chodlin", health := 4, notes := "Cousin of Boblin" },
         { Creature.default with name := "Boblin", health := 4, notes := "The goblin" }]
      else []
    text_area := newTextArea [] }

/-- `App::hovered_creature` from app.rs. -/
def App.hoveredCreature (app : App) : Option Creature :=
  app.selected_creature.bind (fun index => app.creatures[index]?)

/-- `App::select_creature` from app.rs: sets the selection unconditionally, then —
when the new index addresses a creature — rebuilds the notes text area from that
creature's stored notes and jumps the cursor to its stored position. -/
def App.selectCreature (app : App) (index : Nat) : App :=
  let app' := { app with selected_creature := some index }
  match app'.hoveredCreature with
  | some creature =>
    { app' with
      text_area :=
        taMoveCursor (newTextArea (rustLines creature.notes)) creature.notes_cursor_pos }
  | none => app'

/-- Wraps an integer into the `i32` range, as Rust release-mode arithmetic does. -/
def wrap32 (n : Int) : Int := (n + 2 ^ 31) % 2 ^ 32 - 2 ^ 31

/-- Bit-cast `u32 → i32` (the `mag as i32` casts in app.rs). -/
def u32ToI32 (m : Nat) : Int := if m < 2 ^ 31 then (m : Int) else (m : Int) - 2 ^ 32

/-- Bit-cast `i32 → u32` (the `value as u32` cast in app.rs). -/
def i32ToU32 (v : Int) : Nat := (v % 2 ^ 32).toNat

/-- Accumulates a list of ASCII digits into a number; `none` on a non-digit. -/
def parseDigitsAux : List Char → Nat → Option Nat
  | [], acc => some acc
  | c :: cs, acc =>
    if c.isDigit then parseDigitsAux cs (acc * 10 + (c.toNat - 48)) else none

/-- Parses a nonempty list of ASCII digits; `none` when empty or on a non-digit. -/
def parseDigits : List Char → Option Nat
  | [] => none
  | cs => parseDigitsAux cs 0

/-- `i32::from_str` from Rust: an optional sign followed by one or more ASCII
digits, rejected (hence `unwrap_or_default`, i.e. zero, at the call sites in
app.rs) when empty, malformed or outside the `i32` range. -/
def parseI32 (s : String) : Option Int :=
  match s.data with
  | '-' :: rest => (parseDigits rest).bind fun n => if n ≤ 2 ^ 31 then some (-(n : Int)) else none
  | '+' :: rest => (parseDigits rest).bind fun n => if n < 2 ^ 31 then some (n : Int) else none
  | cs => (parseDigits cs).bind fun n => if n < 2 ^ 31 then some (n : Int) else none

/-- `Ord::cmp` on a signed integer, written out explicitly. -/
def cmpInt (a b : Int) : Ordering := if a < b then .lt else if b < a then .gt else .eq

/-- `Ord::cmp` on a character (by code point). -/
def cmpChar (a b : Char) : Ordering := if a < b then .lt else if b < a then .gt else .eq

/-- Lexicographic comparison of character lists: Rust `String`'s `Ord`, which is
bytewise on UTF-8 and therefore code-point-lexicographic. -/
def cmpCharList : List Char → List Char → Ordering
  | [], [] => .eq
  | [], _ :: _ => .lt
  | _ :: _, [] => .gt
  | a :: xs, b :: ys =>
    match cmpChar a b with
    | .eq => cmpCharList xs ys
    | o => o

/-- `Ord::cmp` on strings. -/
def cmpStr (a b : String) : Ordering := cmpCharList a.data b.data

/-- Inserts an element into a run, placing it before later equal elements: the
insertion step of a stable sort. -/
def insertCmp (cmp : α → α → Ordering) (x : α) : List α → List α
  | [] => [x]
  | y :: ys => if cmp x y = Ordering.gt then y :: insertCmp cmp x ys else x :: y :: ys

/-- Stable sort by a comparator: the semantics of `Vec::sort_by`, which the Rust
documentation guarantees to be a stable sort. -/
def stableSortBy (cmp : α → α → Ordering) : List α → List α
  | [] => []
  | x :: xs => insertCmp cmp x (stableSortBy cmp xs)

/-- Comparator of the initiative sort axis (`a.initiative.cmp(&b.initiative)`). -/
def cmpByInitiative (a b : Creature) : Ordering := cmpInt a.initiative b.initiative

/-- Comparator of the health sort axis (`a.health.cmp(&b.health)`). -/
def cmpByHealth (a b : Creature) : Ordering := cmpInt a.health b.health

/-- Comparator of the name sort axis (`a.name.cmp(&b.name)`). -/
def cmpByName (a b : Creature) : Ordering := cmpStr a.name b.name

/-- Argument swap of a comparator: the `|b, a|` closures of the uppercase sort keys. -/
def flipArgs (cmp : α → α → Ordering) : α → α → Ordering := fun b a => cmp a b

/-- `Vec::insert`: insert an element at a position (always `≤` the length at the
one call site, `index + 1` with `index` a valid index). -/
def listInsertAt : List α → Nat → α → List α
  | l, 0, a => a :: l
  | [], _ + 1, a => [a]
  | x :: xs, n + 1, a => x :: listInsertAt xs n a

/-- `App::numeric_edit` from app.rs, generic over the extract/update/revert/commit
closures exactly as the source is; `none` models the panic on a missing creature
and the `unwrap` calls inside the health-shift closures. -/
def numericEdit (app : App)
    (extract : Creature → Option Int)
    (update : Creature → Int → Option Creature)
    (revert : Creature → Creature)
    (commit : Creature → Option Creature)
    (ev : KeyEvent) : Option App :=
  match app.selected_creature with
  | none => none
  | some index =>
    match app.creatures[index]? with
    | none => none
    | some creature =>
      (extract creature).bind fun value =>
        match ev.code with
        | KeyCode.enter =>
          (commit creature).map fun c =>
            { app with creatures := app.creatures.set index c, mode := Mode.normal }
        | KeyCode.esc =>
          some { app with
                 creatures := app.creatures.set index (revert creature),
                 mode := Mode.normal }
        | KeyCode.backspace =>
          let s := String.mk (toString value).data.dropLast
          (update creature ((parseI32 s).getD 0)).map fun c =>
            { app with creatures := app.creatures.set index c }
        | KeyCode.char ch =>
          if ch.isDigit then
            let s := (toString value).push ch
            (update creature ((parseI32 s).getD 0)).map fun c =>
              { app with creatures := app.creatures.set index c }
          else some app
        | _ => some app

/-- Normal-mode key dispatch of `App::read_events` (the `(Mode::Normal,
KeyEventKind::Press)` arm), one branch per character key in source order. -/
def stepNormal (app : App) (code : KeyCode) : Option App :=
  match code with
  | KeyCode.esc => some { app with mode := Mode.meta 0 }
  | KeyCode.char c =>
    if c = '?' then some { app with mode := Mode.help }
    else if c = 's' then some { app with mode := Mode.sortMode }
    else if c = 'K' then some (app.selectCreature 0)
    else if c = 'k' then
      let curr := app.selected_creature.getD 0
      some (app.selectCreature (if curr = 0 then app.creatures.length - 1 else curr - 1))
    else if c = 'j' then
      some (app.selectCreature
        (if app.creatures.isEmpty then 0
         else ((app.selected_creature.map (· + 1)).getD 0) % app.creatures.length))
    else if c = 'J' then some (app.selectCreature (app.creatures.length - 1))
    else if c = 'a' then
      let app' := { app with creatures := app.creatures ++ [Creature.default] }
      let app'' := app'.selectCreature (app'.creatures.length - 1)
      some { app'' with mode := Mode.rename "" }
    else if c = 'r' then
      match app.hoveredCreature with
      | some creat => some { app with mode := Mode.rename creat.name }
      | none => some app
    else if c = 'n' then
      if app.hoveredCreature.isSome then some { app with mode := Mode.editNotes }
      else some app
    else if c = 'c' then
      match app.selected_creature with
      | none => some app
      | some index =>
        match app.creatures[index]? with
        | none => some app
        | some hovered =>
          some { app with creatures := listInsertAt app.creatures (index + 1) hovered }
    else if c = 'd' then
      match app.selected_creature with
      | none => some app
      | some index =>
        match app.creatures[index]? with
        | none => some app
        | some _ =>
          let creatures' := app.creatures.eraseIdx index
          let app' := { app with creatures := creatures' }
          if creatures'.isEmpty then
            some { app' with selected_creature := none, text_area := newTextArea [] }
          else if creatures'.length = index then
            some (app'.selectCreature (creatures'.length - 1))
          else
            some (app'.selectCreature index)
    else if c = 'h' then
      match app.hoveredCreature with
      | some creat => some { app with mode := Mode.setHealth creat.health }
      | none => some app
    else if c = 'i' then
      match app.hoveredCreature with
      | some creat => some { app with mode := Mode.setInitiative creat.initiative }
      | none => some app
    else if c = '-' then
      match app.selected_creature with
      | none => some app
      | some index =>
        match app.creatures[index]? with
        | none => some app
        | some creature =>
          some { app with
                 creatures := app.creatures.set index
                   { creature with health_shift := some (HealthShift.decrease 0) },
                 mode := Mode.healthShift }
    else if c = '+' then
      match app.selected_creature with
      | none => some app
      | some index =>
        match app.creatures[index]? with
        | none => some app
        | some creature =>
          some { app with
                 creatures := app.creatures.set index
                   { creature with health_shift := some (HealthShift.increase 0) },
                 mode := Mode.healthShift }
    else some app
  | _ => some app

/-- Sort-mode key dispatch of `App::read_events` (the `(Mode::Sort,
KeyEventKind::Press)` arm). -/
def stepSort (app : App) (code : KeyCode) : Option App :=
  match code with
  | KeyCode.esc => some { app with mode := Mode.normal }
  | KeyCode.char c =>
    if c = 'i' then
      some { app with
             creatures := stableSortBy cmpByInitiative app.creatures,
             mode := Mode.normal }
    else if c = 'I' then
      some { app with
             creatures := stableSortBy (flipArgs cmpByInitiative) app.creatures,
             mode := Mode.normal }
    else if c = 'h' then
      some { app with
             creatures := stableSortBy cmpByHealth app.creatures,
             mode := Mode.normal }
    else if c = 'H' then
      some { app with
             creatures := stableSortBy (flipArgs cmpByHealth) app.creatures,
             mode := Mode.normal }
    else if c = 'n' then
      some { app with
             creatures := stableSortBy cmpByName app.creatures,
             mode := Mode.normal }
    else if c = 'N' then
      some { app with
             creatures := stableSortBy (flipArgs cmpByName) app.creatures,
             mode := Mode.normal }
    else some app
  | _ => some app

/-- `App::read_events` from app.rs: one key event dispatched against the current
mode; `none` models a panic (the `unwrap` calls and the explicit panic in
`numeric_edit`). -/
def step (app : App) (ev : KeyEvent) : Option App :=
  match app.mode, ev.kind with
  | Mode.normal, KeyEventKind.press => stepNormal app ev.code
  | Mode.meta selection, KeyEventKind.press =>
    match ev.code with
    | KeyCode.esc => some { app with mode := Mode.normal }
    | KeyCode.enter =>
      if selection = 0 then some { app with mode := Mode.normal }
      else if selection = 1 then some { app with running := false }
      else some app
    | KeyCode.char c =>
      if c = 'k' ∨ c = 'j' then some { app with mode := Mode.meta (1 - selection) }
      else some app
    | _ => some app
  | Mode.rename old_name, KeyEventKind.press =>
    match app.selected_creature with
    | none => none
    | some index =>
      match app.creatures[index]? with
      | none => none
      | some creature =>
        let result : String × Mode :=
          match ev.code with
          | KeyCode.enter => (creature.name, Mode.normal)
          | KeyCode.esc => (old_name, Mode.normal)
          | KeyCode.backspace => (String.mk creature.name.data.dropLast, Mode.rename old_name)
          | KeyCode.char ch => (creature.name.push ch, Mode.rename old_name)
          | _ => (creature.name, Mode.rename old_name)
        some { app with
               creatures := app.creatures.set index { creature with name := result.1 },
               mode := result.2 }
  | Mode.editNotes, _ =>
    match ev.code, ev.kind with
    | KeyCode.esc, KeyEventKind.press =>
      match app.selected_creature with
      | none => none
      | some index =>
        match app.creatures[index]? with
        | none => none
        | some creature =>
          some { app with
                 creatures := app.creatures.set index
                   { creature with
                     notes := String.intercalate "\n" app.text_area.lines,
                     notes_cursor_pos := app.text_area.cursor },
                 mode := Mode.normal }
    | _, _ => some { app with text_area := taInput app.text_area ev }
  | Mode.setHealth old, KeyEventKind.press =>
    numericEdit app (fun c => some c.health)
      (fun c v => some { c with health := v })
      (fun c => { c with health := old })
      (fun c => some c) ev
  | Mode.setInitiative old, KeyEventKind.press =>
    numericEdit app (fun c => some c.initiative)
      (fun c v => some { c with initiative := v })
      (fun c => { c with initiative := old })
      (fun c => some c) ev
  | Mode.healthShift, KeyEventKind.press =>
    numericEdit app
      (fun c => (c.health_shift.map fun sh => u32ToI32 sh.mag))
      (fun c v => (c.health_shift.map fun sh =>
        { c with health_shift := some (sh.setMag (i32ToU32 v)) }))
      (fun c => { c with health_shift := none })
      (fun c =>
        match c.health_shift with
        | some (HealthShift.increase mag) =>
          some { c with health := wrap32 (c.health + u32ToI32 mag), health_shift := none }
        | some (HealthShift.decrease mag) =>
          some { c with health := wrap32 (c.health - u32ToI32 mag), health_shift := none }
        | none => none)
      ev
  | Mode.help, KeyEventKind.press =>
    if ev.code = KeyCode.esc then some { app with mode := Mode.normal } else some app
  | Mode.sortMode, KeyEventKind.press => stepSort app ev.code
  | _, _ => some app

/-- Folds a sequence of key events through `step`, propagating panics. -/
def runEvents (app : App) (evs : List KeyEvent) : Option App :=
  evs.foldl (fun acc ev => acc.bind fun s => step s ev) (some app)

/-! ### Stable sort theory for `stableSortBy` (the semantics of `Vec::sort_by`) -/

/-- Adjacent-pairwise sortedness under a comparator: no adjacent strictly
descending pair.  For the total-order comparators used by the app this is
equivalent to global sortedness. -/
def SortedBy (cmp : α → α → Ordering) : List α → Prop
  | [] => True
  | [_] => True
  | x :: y :: rest => cmp x y ≠ Ordering.gt ∧ SortedBy cmp (y :: rest)

/-! ### Sort-mode axis keys -/

/-- Axis keys accepted in Sort mode: the three fields, each in both directions. -/
inductive SortAxisKey where
  | lowI
  | upI
  | lowH
  | upH
  | lowN
  | upN
deriving DecidableEq

/-- Character of an axis key. -/
def sortAxisChar : SortAxisKey → Char
  | .lowI => 'i'
  | .upI => 'I'
  | .lowH => 'h'
  | .upH => 'H'
  | .lowN => 'n'
  | .upN => 'N'

/-- Comparator an axis key sorts by: lowercase ascending, uppercase with the
comparator's arguments swapped, exactly as the closures in the `Mode::Sort` arm. -/
def sortAxisCmp : SortAxisKey → Creature → Creature → Ordering
  | .lowI => cmpByInitiative
  | .upI => flipArgs cmpByInitiative
  | .lowH => cmpByHealth
  | .upH => flipArgs cmpByHealth
  | .lowN => cmpByName
  | .upN => flipArgs cmpByName

/-! ### Navigation (claim C1) -/

/-- Navigation keys of Normal mode: first 'K', last 'J', next 'j', previous 'k'. -/
def isNavKey (ev : KeyEvent) : Bool :=
  (ev.kind = KeyEventKind.press : Bool) &&
    ((ev.code = KeyCode.char 'K' : Bool) || (ev.code = KeyCode.char 'k' : Bool) ||
     (ev.code = KeyCode.char 'j' : Bool) || (ev.code = KeyCode.char 'J' : Bool))

/-- Amended navigation invariant: on a non-empty roster the selection is a valid
index; on an empty roster it is `none` or the dangling index 0 that
`select_creature` writes unconditionally. -/
def NavInv (s : App) : Prop :=
  (s.creatures ≠ [] → ∃ i, s.selected_creature = some i ∧ i < s.creatures.length) ∧
  (s.creatures = [] → s.selected_creature = none ∨ s.selected_creature = some 0)

/-! ### Field-edit modes: edit keys, snapshots and cancel (claims C2, C4, C7, C8) -/

/-- Keys that edit the buffer without leaving a field-edit mode: a character key
or backspace, pressed (Enter and Esc are the only exiting keys). -/
def isEditKey (ev : KeyEvent) : Bool :=
  (ev.kind = KeyEventKind.press : Bool) &&
    (match ev.code with
     | KeyCode.char _ => true
     | KeyCode.backspace => true
     | _ => false)

/-- Shorthand for a plain Esc key press. -/
def escPress : KeyEvent := ⟨KeyCode.esc, false, KeyEventKind.press⟩

/-- Shorthand for a plain Enter key press. -/
def enterPress : KeyEvent := ⟨KeyCode.enter, false, KeyEventKind.press⟩

/-- Entry keys of the field-edit modes reachable from Normal mode. -/
inductive EditEntry where
  | renameKey
  | healthKey
  | initiativeKey
  | incShiftKey
  | decShiftKey
deriving DecidableEq

/-- Character pressed to enter each field-edit mode ('r', 'h', 'i', '+', '-'). -/
def editEntryChar : EditEntry → Char
  | .renameKey => 'r'
  | .healthKey => 'h'
  | .initiativeKey => 'i'
  | .incShiftKey => '+'
  | .decShiftKey => '-'

/-- Signed value a pending health shift applies: the magnitude for increase,
its negation for decrease. -/
def shiftDelta : HealthShift → Int
  | .increase m => u32ToI32 m
  | .decrease m => -(u32ToI32 m)

/-- Integers representable in `i32`. -/
def inI32Range (n : Int) : Prop := -(2 ^ 31) ≤ n ∧ n < 2 ^ 31

/-- Shorthand for a plain Backspace key press. -/
def backspacePress : KeyEvent := ⟨KeyCode.backspace, false, KeyEventKind.press⟩

/-! ### Global invariant: edit modes always have a valid selection (claim C9) -/

/-- Modes whose key handlers dereference the selected creature (`unwrap` calls
in the Rename and EditNotes arms, the panic in `numeric_edit`). -/
def isFieldEditMode : Mode → Bool
  | Mode.rename _ => true
  | Mode.setHealth _ => true
  | Mode.setInitiative _ => true
  | Mode.healthShift => true
  | Mode.editNotes => true
  | _ => false

/-- Invariant: in every field-edit mode the selection is a valid roster index,
and in HealthShift mode the selected creature's pending-shift slot is set — so
none of the panic paths of the dispatcher can fire. -/
def EditInv (s : App) : Prop :=
  (isFieldEditMode s.mode = true →
    ∃ i, s.selected_creature = some i ∧ i < s.creatures.length) ∧
  (s.mode = Mode.healthShift →
    ∃ i c, s.selected_creature = some i ∧ s.creatures[i]? = some c ∧
      c.health_shift.isSome = true)

example : (runEvents (App.new false) [charPress 'j']).map App.selected_creature
    = some (some 0) := by decide

example : (runEvents (App.new true) [charPress 'h', charPress '1']).map
    (fun s => (s.creatures[0]?).map Creature.health) = some (some 51) := by decide

example : runEvents (App.new true) [charPress 'h', charPress '1', ⟨KeyCode.esc, false, KeyEventKind.press⟩]
    = some (App.new true) := by decide

/-! ### Basic list lemmas -/

theorem getElem?_some_lt {l : List α} {i : Nat} {a : α} (h : l[i]? = some a) :
    i < l.length := (List.getElem?_eq_some.mp h).1

theorem set_of_getElem? {l : List α} {i : Nat} {a : α} (h : l[i]? = some a) :
    l.set i a = l := by
  induction l generalizing i with
  | nil => simp at h
  | cons x xs ih =>
    cases i with
    | zero => simp at h; simp [h]
    | succ j => simp at h; simp [List.set, ih h]

theorem getElem?_set_self {l : List α} {i : Nat} {a : α} (h : i < l.length) :
    (l.set i a)[i]? = some a := by
  rw [List.getElem?_set_self']
  simp [h]

theorem length_insertCmp (cmp : α → α → Ordering) (x : α) (l : List α) :
    (insertCmp cmp x l).length = l.length + 1 := by
  induction l with
  | nil => rfl
  | cons y ys ih => simp only [insertCmp]; split <;> simp [ih]

theorem length_stableSortBy (cmp : α → α → Ordering) (l : List α) :
    (stableSortBy cmp l).length = l.length := by
  induction l with
  | nil => rfl
  | cons x xs ih => simp [stableSortBy, length_insertCmp, ih]

theorem perm_insertCmp (cmp : α → α → Ordering) (x : α) (l : List α) :
    List.Perm (insertCmp cmp x l) (x :: l) := by
  induction l with
  | nil => exact List.Perm.refl _
  | cons y ys ih =>
    simp only [insertCmp]
    split
    · exact (List.Perm.cons y ih).trans (List.Perm.swap x y ys)
    · exact List.Perm.refl _

theorem perm_stableSortBy (cmp : α → α → Ordering) (l : List α) :
    List.Perm (stableSortBy cmp l) l := by
  induction l with
  | nil => exact List.Perm.refl _
  | cons x xs ih => exact (perm_insertCmp cmp x _).trans (List.Perm.cons x ih)

theorem sortedBy_insertCmp {cmp : α → α → Ordering}
    (htot : ∀ a b, cmp a b = Ordering.gt → cmp b a ≠ Ordering.gt)
    {l : List α} (x : α) (h : SortedBy cmp l) :
    SortedBy cmp (insertCmp cmp x l) := by
  induction l with
  | nil => exact trivial
  | cons y ys ih =>
    simp only [insertCmp]
    split
    · rename_i hgt
      have hys : SortedBy cmp ys := by
        cases ys with
        | nil => exact trivial
        | cons z zs => exact h.2
      have hins := ih hys
      cases ys with
      | nil =>
        exact ⟨htot _ _ hgt, trivial⟩
      | cons z zs =>
        simp only [insertCmp] at hins ⊢
        by_cases hxz : cmp x z = Ordering.gt
        · rw [if_pos hxz] at hins ⊢
          exact ⟨h.1, hins⟩
        · rw [if_neg hxz] at hins ⊢
          exact ⟨htot _ _ hgt, hins⟩
    · exact ⟨by assumption, h⟩

theorem sortedBy_stableSortBy {cmp : α → α → Ordering}
    (htot : ∀ a b, cmp a b = Ordering.gt → cmp b a ≠ Ordering.gt) (l : List α) :
    SortedBy cmp (stableSortBy cmp l) := by
  induction l with
  | nil => exact trivial
  | cons x xs ih => exact sortedBy_insertCmp htot x ih

theorem stableSortBy_of_sortedBy {cmp : α → α → Ordering} {l : List α}
    (h : SortedBy cmp l) : stableSortBy cmp l = l := by
  induction l with
  | nil => rfl
  | cons x xs ih =>
    cases xs with
    | nil => rfl
    | cons y ys =>
      have : stableSortBy cmp (y :: ys) = y :: ys := ih h.2
      simp only [stableSortBy] at this ⊢
      rw [this]
      simp only [insertCmp]
      rw [if_neg h.1]

theorem stableSortBy_idem {cmp : α → α → Ordering}
    (htot : ∀ a b, cmp a b = Ordering.gt → cmp b a ≠ Ordering.gt) (l : List α) :
    stableSortBy cmp (stableSortBy cmp l) = stableSortBy cmp l :=
  stableSortBy_of_sortedBy (sortedBy_stableSortBy htot l)

theorem filter_insertCmp_pos {cmp : α → α → Ordering} {p : α → Bool} {x : α}
    (hx : p x = true) (hkeep : ∀ y, p y = true → cmp x y ≠ Ordering.gt) (l : List α) :
    (insertCmp cmp x l).filter p = x :: l.filter p := by
  induction l with
  | nil => simp [insertCmp, hx]
  | cons y ys ih =>
    simp only [insertCmp]
    split
    · rename_i hgt
      have hy : p y = false := by
        cases hpy : p y with
        | false => rfl
        | true => exact absurd hgt (hkeep y hpy)
      simp [List.filter, hy, ih]
    · simp [List.filter, hx]

theorem filter_insertCmp_neg {cmp : α → α → Ordering} {p : α → Bool} {x : α}
    (hx : p x = false) (l : List α) :
    (insertCmp cmp x l).filter p = l.filter p := by
  induction l with
  | nil => simp [insertCmp, hx]
  | cons y ys ih =>
    simp only [insertCmp]
    split
    · simp [List.filter, ih]
    · simp [List.filter, hx]

theorem filter_stableSortBy {cmp : α → α → Ordering} {p : α → Bool}
    (hcomp : ∀ x y, p x = true → p y = true → cmp x y ≠ Ordering.gt) (l : List α) :
    (stableSortBy cmp l).filter p = l.filter p := by
  induction l with
  | nil => rfl
  | cons x xs ih =>
    simp only [stableSortBy]
    cases hx : p x with
    | true =>
      rw [filter_insertCmp_pos hx (fun y hy => hcomp x y hx hy), ih]
      simp [List.filter, hx]
    | false =>
      rw [filter_insertCmp_neg hx, ih]
      simp [List.filter, hx]

/-! ### Comparator facts -/

theorem cmpInt_gt_iff {a b : Int} : cmpInt a b = Ordering.gt ↔ b < a := by
  unfold cmpInt
  split_ifs with h1 h2 <;> simp <;> omega

theorem cmpInt_eq_iff {a b : Int} : cmpInt a b = Ordering.eq ↔ a = b := by
  unfold cmpInt
  split_ifs with h1 h2 <;> simp <;> omega

theorem cmpInt_total (a b : Int) : cmpInt a b = Ordering.gt → cmpInt b a ≠ Ordering.gt := by
  intro h h2
  rw [cmpInt_gt_iff] at h h2
  omega

theorem cmpChar_swap (a b : Char) : cmpChar b a = (cmpChar a b).swap := by
  unfold cmpChar
  rcases lt_trichotomy a b with h | h | h
  · rw [if_neg (asymm h), if_pos h, if_pos h]
    rfl
  · subst h
    simp [lt_irrefl, Ordering.swap]
  · rw [if_pos h, if_neg (asymm h), if_pos h]
    rfl

theorem cmpChar_eq_iff {a b : Char} : cmpChar a b = Ordering.eq ↔ a = b := by
  unfold cmpChar
  split_ifs with h1 h2
  · simp [ne_of_lt h1]
  · simp [(ne_of_lt h2).symm]
  · have : a = b := le_antisymm (not_lt.mp h2) (not_lt.mp h1)
    simp [this]

theorem cmpCharList_swap (xs ys : List Char) : cmpCharList ys xs = (cmpCharList xs ys).swap := by
  induction xs generalizing ys with
  | nil => cases ys <;> rfl
  | cons a xs ih =>
    cases ys with
    | nil => rfl
    | cons b ys =>
      simp only [cmpCharList]
      rw [cmpChar_swap a b]
      cases h : cmpChar a b <;> simp [Ordering.swap, ih]

theorem cmpCharList_eq_iff {xs ys : List Char} : cmpCharList xs ys = Ordering.eq ↔ xs = ys := by
  induction xs generalizing ys with
  | nil => cases ys <;> simp [cmpCharList]
  | cons a xs ih =>
    cases ys with
    | nil => simp [cmpCharList]
    | cons b ys =>
      simp only [cmpCharList]
      cases h : cmpChar a b with
      | eq => simp [ih, cmpChar_eq_iff.mp h]
      | lt =>
        have hne : a ≠ b := fun hab => by
          rw [hab, cmpChar_eq_iff.mpr rfl] at h
          cases h
        simp [hne]
      | gt =>
        have hne : a ≠ b := fun hab => by
          rw [hab, cmpChar_eq_iff.mpr rfl] at h
          cases h
        simp [hne]

theorem cmpStr_total (a b : String) : cmpStr a b = Ordering.gt → cmpStr b a ≠ Ordering.gt := by
  unfold cmpStr
  intro h h2
  rw [cmpCharList_swap a.data b.data, h] at h2
  cases h2

theorem cmpStr_eq_iff {a b : String} : cmpStr a b = Ordering.eq ↔ a = b := by
  unfold cmpStr
  rw [cmpCharList_eq_iff]
  exact ⟨fun h => by cases a; cases b; cases h; rfl, fun h => by rw [h]⟩

theorem sortAxisCmp_total (k : SortAxisKey) (a b : Creature) :
    sortAxisCmp k a b = Ordering.gt → sortAxisCmp k b a ≠ Ordering.gt := by
  cases k <;>
    simp only [sortAxisCmp, cmpByInitiative, cmpByHealth, cmpByName, flipArgs] <;>
    first
      | exact cmpInt_total _ _
      | exact cmpStr_total _ _

theorem sortAxisCmp_eq_trans (k : SortAxisKey) (c0 x y : Creature)
    (hx : sortAxisCmp k c0 x = Ordering.eq) (hy : sortAxisCmp k c0 y = Ordering.eq) :
    sortAxisCmp k x y = Ordering.eq := by
  cases k <;>
    simp only [sortAxisCmp, cmpByInitiative, cmpByHealth, cmpByName, flipArgs,
      cmpInt_eq_iff, cmpStr_eq_iff] at hx hy ⊢ <;>
    simp_all

/-! ### Small frame lemmas about `App::select_creature` and `step` -/

theorem selectCreature_mode (app : App) (index : Nat) :
    (app.selectCreature index).mode = app.mode := by
  simp only [App.selectCreature]
  split <;> rfl

theorem selectCreature_running (app : App) (index : Nat) :
    (app.selectCreature index).running = app.running := by
  simp only [App.selectCreature]
  split <;> rfl

theorem selectCreature_creatures (app : App) (index : Nat) :
    (app.selectCreature index).creatures = app.creatures := by
  simp only [App.selectCreature]
  split <;> rfl

theorem selectCreature_selected (app : App) (index : Nat) :
    (app.selectCreature index).selected_creature = some index := by
  simp only [App.selectCreature]
  split <;> rfl

/-- Effect of each axis key in Sort mode: the roster is stably sorted by the
axis comparator, the mode returns to Normal, every other field is untouched. -/
theorem step_sortMode (app : App) (hmode : app.mode = Mode.sortMode) (k : SortAxisKey) :
    step app (charPress (sortAxisChar k)) =
      some { app with
             creatures := stableSortBy (sortAxisCmp k) app.creatures,
             mode := Mode.normal } := by
  obtain ⟨running, mode, sel, cre, ta⟩ := app
  simp only at hmode
  subst hmode
  cases k <;> rfl

/-- C10: every axis key in Sort mode mutates only the roster order and the mode:
the selected index, the notes text area and the running flag are left unchanged,
the mode returns to Normal, and the new roster is the stable sort — hence a
permutation — of the old one. -/
theorem C10_sort_frame (app : App) (hmode : app.mode = Mode.sortMode) (k : SortAxisKey) :
    ∃ s', step app (charPress (sortAxisChar k)) = some s' ∧
      s'.selected_creature = app.selected_creature ∧
      s'.text_area = app.text_area ∧
      s'.running = app.running ∧
      s'.mode = Mode.normal ∧
      s'.creatures = stableSortBy (sortAxisCmp k) app.creatures ∧
      List.Perm s'.creatures app.creatures := by
  refine ⟨_, step_sortMode app hmode k, rfl, rfl, rfl, rfl, rfl, ?_⟩
  exact perm_stableSortBy _ _

/-- Witness for C10 at a concrete Sort-mode state and the health axis. -/
theorem C10_sort_frame_witness :
    ∃ s', step { App.new true with mode := Mode.sortMode }
        (charPress (sortAxisChar SortAxisKey.lowH)) = some s' ∧
      s'.selected_creature = ({ App.new true with mode := Mode.sortMode } : App).selected_creature ∧
      s'.text_area = ({ App.new true with mode := Mode.sortMode } : App).text_area ∧
      s'.running = ({ App.new true with mode := Mode.sortMode } : App).running ∧
      s'.mode = Mode.normal ∧
      s'.creatures = stableSortBy (sortAxisCmp SortAxisKey.lowH)
        ({ App.new true with mode := Mode.sortMode } : App).creatures ∧
      List.Perm s'.creatures ({ App.new true with mode := Mode.sortMode } : App).creatures :=
  C10_sort_frame { App.new true with mode := Mode.sortMode } rfl SortAxisKey.lowH

/-- C5: in Sort mode each axis key stably sorts the roster by the chosen field
(lowercase ascending, uppercase with the comparator arguments reversed) and
returns to Normal; the sort result has no adjacent descending pair under the
comparator, the sort is stable (creatures comparing equal to any fixed pivot on
the chosen axis keep their prior relative order), repeating the same sort with
the same direction leaves the roster identical, and on the demo roster
Goblin(hp 5), Chodlin(hp 4), Boblin(hp 4) the health-ascending sort yields
Chodlin, Boblin, Goblin — the two hp-4 creatures in their original order. -/
theorem C5_sort_policy (app : App) (hmode : app.mode = Mode.sortMode) :
    (∀ k : SortAxisKey,
      step app (charPress (sortAxisChar k)) =
        some { app with
               creatures := stableSortBy (sortAxisCmp k) app.creatures,
               mode := Mode.normal } ∧
      SortedBy (sortAxisCmp k) (stableSortBy (sortAxisCmp k) app.creatures) ∧
      (∀ c0, (stableSortBy (sortAxisCmp k) app.creatures).filter
          (fun c => decide (sortAxisCmp k c0 c = Ordering.eq)) =
        app.creatures.filter (fun c => decide (sortAxisCmp k c0 c = Ordering.eq))) ∧
      stableSortBy (sortAxisCmp k) (stableSortBy (sortAxisCmp k) app.creatures) =
        stableSortBy (sortAxisCmp k) app.creatures) ∧
    stableSortBy cmpByHealth (App.new true).creatures =
      [{ Creature.default with name := "Chodlin", health := 4, notes := "Cousin of Boblin" },
       { Creature.default with name := "Boblin", health := 4, notes := "The goblin" },
       { Creature.default with name := "Goblin", health := 5, notes := "Very gobliny" }] := by
  constructor
  · intro k
    refine ⟨step_sortMode app hmode k,
      sortedBy_stableSortBy (sortAxisCmp_total k) _, ?_,
      stableSortBy_idem (sortAxisCmp_total k) _⟩
    intro c0
    refine filter_stableSortBy (fun x y hx hy => ?_) _
    have hx' := of_decide_eq_true hx
    have hy' := of_decide_eq_true hy
    rw [sortAxisCmp_eq_trans k c0 x y hx' hy']
    simp
  · decide

/-- Witness for C5 at a concrete Sort-mode state and the health axis. -/
theorem C5_sort_policy_witness :
    ({ App.new true with mode := Mode.sortMode } : App).mode = Mode.sortMode ∧
    step { App.new true with mode := Mode.sortMode } (charPress 'h') =
      some { { App.new true with mode := Mode.sortMode } with
             creatures := stableSortBy cmpByHealth (App.new true).creatures,
             mode := Mode.normal } :=
  ⟨rfl, ((C5_sort_policy { App.new true with mode := Mode.sortMode } rfl).1 SortAxisKey.lowH).1⟩

theorem hovered_none_of_empty {s : App} (h : s.creatures = []) :
    s.hoveredCreature = none := by
  cases hsel : s.selected_creature <;> simp [App.hoveredCreature, hsel, h]

theorem step_navKey (app : App) (ev : KeyEvent) (hmode : app.mode = Mode.normal)
    (hinv : NavInv app) (hev : isNavKey ev = true) :
    ∃ s', step app ev = some s' ∧ s'.mode = Mode.normal ∧
      s'.creatures = app.creatures ∧ NavInv s' ∧
      (app.creatures = [] → s'.selected_creature = some 0) := by
  obtain ⟨running, mode, sel, cre, ta⟩ := app
  obtain ⟨code, alt, kind⟩ := ev
  simp only at hmode
  subst hmode
  simp only [isNavKey, Bool.and_eq_true, Bool.or_eq_true, decide_eq_true_eq] at hev
  obtain ⟨hkind, hcode⟩ := hev
  subst hkind
  have navResult : ∀ idx : Nat,
      (cre ≠ [] → idx < cre.length) → (cre = [] → idx = 0) →
      ∃ s', some (App.selectCreature ⟨running, Mode.normal, sel, cre, ta⟩ idx) = some s' ∧
        s'.mode = Mode.normal ∧ s'.creatures = cre ∧ NavInv s' ∧
        (cre = [] → s'.selected_creature = some 0) := by
    intro idx hlt hzero
    refine ⟨_, rfl, selectCreature_mode _ _, selectCreature_creatures _ _, ?_, ?_⟩
    · constructor
      · intro hne
        rw [selectCreature_creatures] at hne
        exact ⟨idx, selectCreature_selected _ _, by rw [selectCreature_creatures]; exact hlt hne⟩
      · intro hemp
        rw [selectCreature_creatures] at hemp
        right
        rw [selectCreature_selected, hzero hemp]
    · intro hemp
      rw [selectCreature_selected, hzero hemp]
  rcases hcode with ((h | h) | h) | h <;> subst h
  · -- 'K'
    exact navResult 0 (fun hne => List.length_pos.mpr hne) (fun _ => rfl)
  · -- 'k'
    refine navResult _ (fun hne => ?_) (fun hemp => ?_)
    · obtain ⟨i, hsel, hlt⟩ := hinv.1 hne
      replace hsel : sel = some i := hsel
      replace hlt : i < cre.length := hlt
      dsimp only
      rw [hsel]
      have hpos := List.length_pos.mpr hne
      simp only [Option.getD_some]
      split_ifs <;> omega
    · rcases hinv.2 hemp with hsel | hsel
      · replace hsel : sel = none := hsel
        dsimp only
        rw [hsel, hemp]
        rfl
      · replace hsel : sel = some 0 := hsel
        dsimp only
        rw [hsel, hemp]
        rfl
  · -- 'j'
    refine navResult _ (fun hne => ?_) (fun hemp => ?_)
    · have hf : cre.isEmpty = false := by
        cases cre with
        | nil => exact absurd rfl hne
        | cons _ _ => rfl
      simp only [hf, Bool.false_eq_true, if_false]
      exact Nat.mod_lt _ (List.length_pos.mpr hne)
    · rw [hemp]
      rfl
  · -- 'J'
    refine navResult (cre.length - 1) (fun hne => ?_) (fun hemp => by rw [hemp]; rfl)
    have hpos := List.length_pos.mpr hne
    omega

theorem runEvents_nil (app : App) : runEvents app [] = some app := rfl

theorem foldl_bind_none (evs : List KeyEvent) :
    evs.foldl (fun acc ev => acc.bind fun s => step s ev) none = none := by
  induction evs with
  | nil => rfl
  | cons ev evs ih => exact ih

theorem runEvents_cons (app : App) (ev : KeyEvent) (evs : List KeyEvent) :
    runEvents app (ev :: evs) = (step app ev).bind fun s' => runEvents s' evs := by
  have h1 : runEvents app (ev :: evs)
      = List.foldl (fun acc e => acc.bind fun s => step s e) (step app ev) evs := rfl
  rw [h1]
  cases h : step app ev with
  | none => exact foldl_bind_none evs
  | some s' => rfl

/-- C1 (amended): any sequence of navigation-only key presses from a Normal-mode
state satisfying the (amended) invariant never panics, leaves the roster and the
mode unchanged, keeps the selection a valid index whenever the roster is
non-empty, and — the amendment — on an empty roster ends with the dangling
selection index 0 (under which no creature is hovered) instead of `none`. -/
theorem C1_navigation (app : App) (evs : List KeyEvent)
    (hmode : app.mode = Mode.normal) (hinv : NavInv app)
    (hevs : ∀ ev ∈ evs, isNavKey ev = true) :
    ∃ s', runEvents app evs = some s' ∧ s'.mode = Mode.normal ∧
      s'.creatures = app.creatures ∧ NavInv s' ∧
      (s'.creatures = [] → s'.hoveredCreature = none) ∧
      (app.creatures = [] → evs ≠ [] → s'.selected_creature = some 0) := by
  induction evs generalizing app with
  | nil =>
    exact ⟨app, runEvents_nil app, hmode, rfl, hinv,
      fun h => hovered_none_of_empty h, fun _ h => absurd rfl h⟩
  | cons ev evs ih =>
    obtain ⟨s1, hstep, hmode1, hcre1, hinv1, hzero1⟩ :=
      step_navKey app ev hmode hinv (hevs ev (List.mem_cons_self ev evs))
    obtain ⟨s', hrun, hmode', hcre', hinv', hhov', hlast'⟩ :=
      ih s1 hmode1 hinv1 (fun e he => hevs e (List.mem_cons_of_mem ev he))
    refine ⟨s', ?_, hmode', hcre'.trans hcre1, hinv', hhov', ?_⟩
    · rw [runEvents_cons, hstep]
      exact hrun
    · intro hemp _
      cases evs with
      | nil =>
        cases hrun.symm.trans (runEvents_nil s1) with
        | refl => exact hzero1 hemp
      | cons e es =>
        exact hlast' (hcre1.trans hemp) (by simp)

/-- Witness for C1 (amended) on the empty-roster initial state with two navigation presses. -/
theorem C1_navigation_witness :
    ∃ s', runEvents (App.new false) [charPress 'j', charPress 'k'] = some s' ∧
      s'.mode = Mode.normal ∧
      s'.creatures = (App.new false).creatures ∧ NavInv s' ∧
      (s'.creatures = [] → s'.hoveredCreature = none) ∧
      ((App.new false).creatures = [] → [charPress 'j', charPress 'k'] ≠ [] →
        s'.selected_creature = some 0) :=
  C1_navigation (App.new false) [charPress 'j', charPress 'k'] rfl
    ⟨fun h => absurd rfl h, fun _ => Or.inl rfl⟩
    (by intro ev hev; simp only [List.mem_cons, List.mem_singleton] at hev
        rcases hev with h | h | h <;> first | (subst h; rfl) | cases h)

/-- C1 counterexample: from the empty-roster initial state, where the claimed
invariant holds (no selection, empty roster), a single press of the navigation
key 'j' sets the selection to `some 0` while the roster is still empty, so
"selection is none iff the roster is empty" fails after navigation. -/
theorem C1_counterexample :
    (App.new false).creatures = [] ∧ (App.new false).selected_creature = none ∧
    step (App.new false) (charPress 'j') =
      some { App.new false with selected_creature := some 0 } ∧
    ({ App.new false with selected_creature := some 0 } : App).creatures = [] ∧
    ({ App.new false with selected_creature := some 0 } : App).selected_creature ≠ none := by
  refine ⟨rfl, rfl, by decide, rfl, by decide⟩

/-- C3: in Normal mode the delete key with a hovered creature at index i in a
roster of length n leaves length n-1 and selection min(i, n-2) when n > 1;
when n = 1 it empties the roster, clears the selection and resets the text
area; with no hovered creature it is a no-op. -/
theorem C3_delete (app : App) (hmode : app.mode = Mode.normal) :
    (app.hoveredCreature = none → step app (charPress 'd') = some app) ∧
    (∀ i c, app.selected_creature = some i → app.creatures[i]? = some c →
      ∃ s', step app (charPress 'd') = some s' ∧
        s'.creatures.length = app.creatures.length - 1 ∧
        (1 < app.creatures.length →
          s'.selected_creature = some (min i (app.creatures.length - 2))) ∧
        (app.creatures.length = 1 →
          s'.creatures = [] ∧ s'.selected_creature = none ∧
            s'.text_area = newTextArea [])) := by
  obtain ⟨running, mode, sel, cre, ta⟩ := app
  simp only at hmode
  subst hmode
  constructor
  · intro hnone
    rcases hq : sel with _ | i
    · subst hq
      rfl
    · replace hnone : cre[i]? = none := by
        rw [hq] at hnone
        exact hnone
      subst hq
      show (match cre[i]? with
        | none => _
        | some _ => _) = _
      rw [hnone]
  · intro i c hsel hc
    dsimp only at hsel hc ⊢
    subst hsel
    have hlt : i < cre.length := getElem?_some_lt hc
    have hlen : (cre.eraseIdx i).length = cre.length - 1 := by
      rw [List.length_eraseIdx]
      simp [hlt]
    show ∃ s', (match cre[i]? with
      | none => _
      | some _ => _) = some s' ∧ _
    rw [hc]
    by_cases hemp : (cre.eraseIdx i).isEmpty
    · rw [if_pos hemp]
      have hnil : cre.eraseIdx i = [] := List.isEmpty_iff.mp hemp
      have h1 : cre.length = 1 := by
        have := hnil ▸ hlen
        simp at this
        omega
      exact ⟨_, rfl, by simp [hnil, h1], fun hgt => by omega,
        fun _ => ⟨hnil, rfl, rfl⟩⟩
    · rw [if_neg (by simp [hemp])]
      have hne : cre.eraseIdx i ≠ [] := fun h => hemp (by simp [h])
      have hpos : 0 < (cre.eraseIdx i).length := List.length_pos.mpr hne
      by_cases heq : (cre.eraseIdx i).length = i
      · rw [if_pos heq]
        refine ⟨_, rfl, ?_, ?_, ?_⟩
        · rw [selectCreature_creatures]
          exact hlen
        · intro hgt
          rw [selectCreature_selected]
          congr 1
          dsimp only
          omega
        · intro h1
          omega
      · rw [if_neg heq]
        refine ⟨_, rfl, ?_, ?_, ?_⟩
        · rw [selectCreature_creatures]
          exact hlen
        · intro hgt
          rw [selectCreature_selected]
          congr 1
          dsimp only
          omega
        · intro h1
          omega

/-- Witness for C3 at the demo roster with the first creature hovered. -/
theorem C3_delete_witness :
    ∃ s', step (App.new true) (charPress 'd') = some s' ∧
      s'.creatures.length = (App.new true).creatures.length - 1 ∧
      (1 < (App.new true).creatures.length →
        s'.selected_creature = some (min 0 ((App.new true).creatures.length - 2))) ∧
      ((App.new true).creatures.length = 1 →
        s'.creatures = [] ∧ s'.selected_creature = none ∧
          s'.text_area = newTextArea []) :=
  (C3_delete (App.new true) rfl).2 0
    { Creature.default with name := "Goblin", health := 5, notes := "Very gobliny" } rfl rfl

theorem step_setHealth_editKey (running : Bool) (old : Int) (i : Nat)
    (cre : List Creature) (ta : TextArea) (c : Creature) (ev : KeyEvent)
    (hc : cre[i]? = some c) (hev : isEditKey ev = true) :
    ∃ h', step ⟨running, Mode.setHealth old, some i, cre, ta⟩ ev =
      some ⟨running, Mode.setHealth old, some i, cre.set i { c with health := h' }, ta⟩ := by
  obtain ⟨nm, hp, hs, init, nts, cur⟩ := c
  obtain ⟨code, alt, kind⟩ := ev
  simp only [isEditKey, Bool.and_eq_true, decide_eq_true_eq] at hev
  obtain ⟨hkind, hcode⟩ := hev
  subst hkind
  cases code with
  | char ch =>
    have hred : step ⟨running, Mode.setHealth old, some i, cre, ta⟩
        ⟨KeyCode.char ch, alt, KeyEventKind.press⟩ =
        match cre[i]? with
        | none => none
        | some creature =>
          if ch.isDigit then
            some ⟨running, Mode.setHealth old, some i,
              cre.set i { creature with
                health := (parseI32 ((toString creature.health).push ch)).getD 0 }, ta⟩
          else some ⟨running, Mode.setHealth old, some i, cre, ta⟩ := rfl
    rw [hred, hc]
    dsimp only
    by_cases hd : ch.isDigit
    · rw [if_pos hd]
      exact ⟨_, rfl⟩
    · rw [if_neg hd]
      refine ⟨hp, ?_⟩
      rw [set_of_getElem? hc]
  | backspace =>
    have hred : step ⟨running, Mode.setHealth old, some i, cre, ta⟩
        ⟨KeyCode.backspace, alt, KeyEventKind.press⟩ =
        match cre[i]? with
        | none => none
        | some creature =>
          some ⟨running, Mode.setHealth old, some i,
            cre.set i { creature with
              health := (parseI32 (String.mk (toString creature.health).data.dropLast)).getD 0 },
            ta⟩ := rfl
    rw [hred, hc]
    dsimp only
    exact ⟨_, rfl⟩
  | enter => cases hcode
  | esc => cases hcode
  | otherKey => cases hcode

theorem run_setHealth_editKeys (running : Bool) (old : Int) (i : Nat)
    (cre : List Creature) (ta : TextArea) (c : Creature) (evs : List KeyEvent)
    (hc : cre[i]? = some c) (hevs : ∀ ev ∈ evs, isEditKey ev = true) :
    ∃ h', runEvents ⟨running, Mode.setHealth old, some i, cre, ta⟩ evs =
      some ⟨running, Mode.setHealth old, some i, cre.set i { c with health := h' }, ta⟩ := by
  induction evs generalizing cre c with
  | nil =>
    obtain ⟨nm, hp, hs, init, nts, cur⟩ := c
    refine ⟨hp, ?_⟩
    rw [runEvents_nil, set_of_getElem? hc]
  | cons ev evs ih =>
    obtain ⟨nm, hp, hs, init, nts, cur⟩ := c
    obtain ⟨h1, hstep⟩ := step_setHealth_editKey running old i cre ta _ ev hc
      (hevs ev (List.mem_cons_self ev evs))
    have hlt : i < cre.length := getElem?_some_lt hc
    have hc1 : (cre.set i ⟨nm, h1, hs, init, nts, cur⟩ : List Creature)[i]? =
        some ⟨nm, h1, hs, init, nts, cur⟩ :=
      getElem?_set_self hlt
    obtain ⟨h', hrun⟩ := ih _ _ hc1 (fun e he => hevs e (List.mem_cons_of_mem ev he))
    refine ⟨h', ?_⟩
    rw [runEvents_cons, hstep]
    show runEvents _ evs = _
    rw [hrun, List.set_set]

theorem runEvents_append (app : App) (l1 l2 : List KeyEvent) :
    runEvents app (l1 ++ l2) = (runEvents app l1).bind fun s' => runEvents s' l2 := by
  induction l1 generalizing app with
  | nil => rw [List.nil_append, runEvents_nil, Option.some_bind]
  | cons ev l1 ih =>
    rw [List.cons_append, runEvents_cons, runEvents_cons]
    cases step app ev with
    | none => rfl
    | some s1 => exact ih s1

theorem step_setInitiative_editKey (running : Bool) (old : Int) (i : Nat)
    (cre : List Creature) (ta : TextArea) (c : Creature) (ev : KeyEvent)
    (hc : cre[i]? = some c) (hev : isEditKey ev = true) :
    ∃ v', step ⟨running, Mode.setInitiative old, some i, cre, ta⟩ ev =
      some ⟨running, Mode.setInitiative old, some i, cre.set i { c with initiative := v' }, ta⟩ := by
  obtain ⟨nm, hp, hs, init, nts, cur⟩ := c
  obtain ⟨code, alt, kind⟩ := ev
  simp only [isEditKey, Bool.and_eq_true, decide_eq_true_eq] at hev
  obtain ⟨hkind, hcode⟩ := hev
  subst hkind
  cases code with
  | char ch =>
    have hred : step ⟨running, Mode.setInitiative old, some i, cre, ta⟩
        ⟨KeyCode.char ch, alt, KeyEventKind.press⟩ =
        match cre[i]? with
        | none => none
        | some creature =>
          if ch.isDigit then
            some ⟨running, Mode.setInitiative old, some i,
              cre.set i { creature with
                initiative := (parseI32 ((toString creature.initiative).push ch)).getD 0 }, ta⟩
          else some ⟨running, Mode.setInitiative old, some i, cre, ta⟩ := rfl
    rw [hred, hc]
    dsimp only
    by_cases hd : ch.isDigit
    · rw [if_pos hd]
      exact ⟨_, rfl⟩
    · rw [if_neg hd]
      refine ⟨init, ?_⟩
      rw [set_of_getElem? hc]
  | backspace =>
    have hred : step ⟨running, Mode.setInitiative old, some i, cre, ta⟩
        ⟨KeyCode.backspace, alt, KeyEventKind.press⟩ =
        match cre[i]? with
        | none => none
        | some creature =>
          some ⟨running, Mode.setInitiative old, some i,
            cre.set i { creature with
              initiative :=
                (parseI32 (String.mk (toString creature.initiative).data.dropLast)).getD 0 },
            ta⟩ := rfl
    rw [hred, hc]
    dsimp only
    exact ⟨_, rfl⟩
  | enter => cases hcode
  | esc => cases hcode
  | otherKey => cases hcode

theorem run_setInitiative_editKeys (running : Bool) (old : Int) (i : Nat)
    (cre : List Creature) (ta : TextArea) (c : Creature) (evs : List KeyEvent)
    (hc : cre[i]? = some c) (hevs : ∀ ev ∈ evs, isEditKey ev = true) :
    ∃ v', runEvents ⟨running, Mode.setInitiative old, some i, cre, ta⟩ evs =
      some ⟨running, Mode.setInitiative old, some i,
        cre.set i { c with initiative := v' }, ta⟩ := by
  induction evs generalizing cre c with
  | nil =>
    obtain ⟨nm, hp, hs, init, nts, cur⟩ := c
    refine ⟨init, ?_⟩
    rw [runEvents_nil, set_of_getElem? hc]
  | cons ev evs ih =>
    obtain ⟨nm, hp, hs, init, nts, cur⟩ := c
    obtain ⟨v1, hstep⟩ := step_setInitiative_editKey running old i cre ta _ ev hc
      (hevs ev (List.mem_cons_self ev evs))
    have hlt : i < cre.length := getElem?_some_lt hc
    have hc1 : (cre.set i ⟨nm, hp, hs, v1, nts, cur⟩ : List Creature)[i]? =
        some ⟨nm, hp, hs, v1, nts, cur⟩ :=
      getElem?_set_self hlt
    obtain ⟨v', hrun⟩ := ih _ _ hc1 (fun e he => hevs e (List.mem_cons_of_mem ev he))
    refine ⟨v', ?_⟩
    rw [runEvents_cons, hstep]
    show runEvents _ evs = _
    rw [hrun, List.set_set]

theorem step_rename_editKey (running : Bool) (old : String) (i : Nat)
    (cre : List Creature) (ta : TextArea) (c : Creature) (ev : KeyEvent)
    (hc : cre[i]? = some c) (hev : isEditKey ev = true) :
    ∃ n', step ⟨running, Mode.rename old, some i, cre, ta⟩ ev =
      some ⟨running, Mode.rename old, some i, cre.set i { c with name := n' }, ta⟩ := by
  obtain ⟨nm, hp, hs, init, nts, cur⟩ := c
  obtain ⟨code, alt, kind⟩ := ev
  simp only [isEditKey, Bool.and_eq_true, decide_eq_true_eq] at hev
  obtain ⟨hkind, hcode⟩ := hev
  subst hkind
  cases code with
  | char ch =>
    have hred : step ⟨running, Mode.rename old, some i, cre, ta⟩
        ⟨KeyCode.char ch, alt, KeyEventKind.press⟩ =
        match cre[i]? with
        | none => none
        | some creature =>
          some ⟨running, Mode.rename old, some i,
            cre.set i { creature with name := creature.name.push ch }, ta⟩ := rfl
    rw [hred, hc]
    dsimp only
    exact ⟨_, rfl⟩
  | backspace =>
    have hred : step ⟨running, Mode.rename old, some i, cre, ta⟩
        ⟨KeyCode.backspace, alt, KeyEventKind.press⟩ =
        match cre[i]? with
        | none => none
        | some creature =>
          some ⟨running, Mode.rename old, some i,
            cre.set i { creature with name := String.mk creature.name.data.dropLast }, ta⟩ := rfl
    rw [hred, hc]
    dsimp only
    exact ⟨_, rfl⟩
  | enter => cases hcode
  | esc => cases hcode
  | otherKey => cases hcode

theorem run_rename_editKeys (running : Bool) (old : String) (i : Nat)
    (cre : List Creature) (ta : TextArea) (c : Creature) (evs : List KeyEvent)
    (hc : cre[i]? = some c) (hevs : ∀ ev ∈ evs, isEditKey ev = true) :
    ∃ n', runEvents ⟨running, Mode.rename old, some i, cre, ta⟩ evs =
      some ⟨running, Mode.rename old, some i, cre.set i { c with name := n' }, ta⟩ := by
  induction evs generalizing cre c with
  | nil =>
    obtain ⟨nm, hp, hs, init, nts, cur⟩ := c
    refine ⟨nm, ?_⟩
    rw [runEvents_nil, set_of_getElem? hc]
  | cons ev evs ih =>
    obtain ⟨nm, hp, hs, init, nts, cur⟩ := c
    obtain ⟨n1, hstep⟩ := step_rename_editKey running old i cre ta _ ev hc
      (hevs ev (List.mem_cons_self ev evs))
    have hlt : i < cre.length := getElem?_some_lt hc
    have hc1 : (cre.set i ⟨n1, hp, hs, init, nts, cur⟩ : List Creature)[i]? =
        some ⟨n1, hp, hs, init, nts, cur⟩ :=
      getElem?_set_self hlt
    obtain ⟨n', hrun⟩ := ih _ _ hc1 (fun e he => hevs e (List.mem_cons_of_mem ev he))
    refine ⟨n', ?_⟩
    rw [runEvents_cons, hstep]
    show runEvents _ evs = _
    rw [hrun, List.set_set]

theorem setMag_setMag (sh : HealthShift) (a b : Nat) :
    (sh.setMag a).setMag b = sh.setMag b := by
  cases sh <;> rfl

theorem step_healthShift_editKey (running : Bool) (i : Nat)
    (cre : List Creature) (ta : TextArea) (c : Creature) (sh : HealthShift) (ev : KeyEvent)
    (hc : cre[i]? = some c) (hsh : c.health_shift = some sh) (hev : isEditKey ev = true) :
    ∃ m', step ⟨running, Mode.healthShift, some i, cre, ta⟩ ev =
      some ⟨running, Mode.healthShift, some i,
        cre.set i { c with health_shift := some (sh.setMag m') }, ta⟩ := by
  obtain ⟨nm, hp, hs, init, nts, cur⟩ := c
  simp only at hsh
  subst hsh
  obtain ⟨code, alt, kind⟩ := ev
  simp only [isEditKey, Bool.and_eq_true, decide_eq_true_eq] at hev
  obtain ⟨hkind, hcode⟩ := hev
  subst hkind
  cases code with
  | char ch =>
    have hred : step ⟨running, Mode.healthShift, some i, cre, ta⟩
        ⟨KeyCode.char ch, alt, KeyEventKind.press⟩ =
        match cre[i]? with
        | none => none
        | some creature =>
          (creature.health_shift.map fun s => u32ToI32 s.mag).bind fun value =>
            if ch.isDigit then
              (creature.health_shift.map fun s =>
                  { creature with
                    health_shift := some (s.setMag (i32ToU32
                      ((parseI32 ((toString value).push ch)).getD 0))) }).map
                fun c' => (⟨running, Mode.healthShift, some i, cre.set i c', ta⟩ : App)
            else some ⟨running, Mode.healthShift, some i, cre, ta⟩ := rfl
    rw [hred, hc]
    dsimp only [Option.map_some', Option.some_bind]
    by_cases hd : ch.isDigit
    · rw [if_pos hd]
      exact ⟨_, rfl⟩
    · rw [if_neg hd]
      refine ⟨sh.mag, ?_⟩
      have hid : sh.setMag sh.mag = sh := by cases sh <;> rfl
      rw [hid, set_of_getElem? hc]
  | backspace =>
    have hred : step ⟨running, Mode.healthShift, some i, cre, ta⟩
        ⟨KeyCode.backspace, alt, KeyEventKind.press⟩ =
        match cre[i]? with
        | none => none
        | some creature =>
          (creature.health_shift.map fun s => u32ToI32 s.mag).bind fun value =>
            (creature.health_shift.map fun s =>
                { creature with
                  health_shift := some (s.setMag (i32ToU32
                    ((parseI32 (String.mk (toString value).data.dropLast)).getD 0))) }).map
              fun c' => (⟨running, Mode.healthShift, some i, cre.set i c', ta⟩ : App) := rfl
    rw [hred, hc]
    dsimp only [Option.map_some', Option.some_bind]
    exact ⟨_, rfl⟩
  | enter => cases hcode
  | esc => cases hcode
  | otherKey => cases hcode

theorem run_healthShift_editKeys (running : Bool) (i : Nat)
    (cre : List Creature) (ta : TextArea) (c : Creature) (sh : HealthShift)
    (evs : List KeyEvent)
    (hc : cre[i]? = some c) (hsh : c.health_shift = some sh)
    (hevs : ∀ ev ∈ evs, isEditKey ev = true) :
    ∃ m', runEvents ⟨running, Mode.healthShift, some i, cre, ta⟩ evs =
      some ⟨running, Mode.healthShift, some i,
        cre.set i { c with health_shift := some (sh.setMag m') }, ta⟩ := by
  induction evs generalizing cre c sh with
  | nil =>
    obtain ⟨nm, hp, hs, init, nts, cur⟩ := c
    simp only at hsh
    subst hsh
    refine ⟨sh.mag, ?_⟩
    have hid : sh.setMag sh.mag = sh := by cases sh <;> rfl
    rw [runEvents_nil, hid, set_of_getElem? hc]
  | cons ev evs ih =>
    obtain ⟨nm, hp, hs, init, nts, cur⟩ := c
    simp only at hsh
    subst hsh
    obtain ⟨m1, hstep⟩ := step_healthShift_editKey running i cre ta _ sh ev hc rfl
      (hevs ev (List.mem_cons_self ev evs))
    have hlt : i < cre.length := getElem?_some_lt hc
    have hc1 : (cre.set i ⟨nm, hp, some (sh.setMag m1), init, nts, cur⟩ : List Creature)[i]? =
        some ⟨nm, hp, some (sh.setMag m1), init, nts, cur⟩ :=
      getElem?_set_self hlt
    obtain ⟨m', hrun⟩ := ih _ _ (sh.setMag m1) hc1 rfl
      (fun e he => hevs e (List.mem_cons_of_mem ev he))
    refine ⟨m', ?_⟩
    rw [runEvents_cons, hstep]
    show runEvents _ evs = _
    rw [hrun, List.set_set, setMag_setMag]

theorem step_entry_rename (running : Bool) (i : Nat) (cre : List Creature) (ta : TextArea)
    (c : Creature) (hc : cre[i]? = some c) :
    step ⟨running, Mode.normal, some i, cre, ta⟩ (charPress 'r') =
      some ⟨running, Mode.rename c.name, some i, cre, ta⟩ := by
  have hred : step ⟨running, Mode.normal, some i, cre, ta⟩ (charPress 'r') =
      match cre[i]? with
      | some creat => some ⟨running, Mode.rename creat.name, some i, cre, ta⟩
      | none => some ⟨running, Mode.normal, some i, cre, ta⟩ := rfl
  rw [hred, hc]

theorem step_entry_health (running : Bool) (i : Nat) (cre : List Creature) (ta : TextArea)
    (c : Creature) (hc : cre[i]? = some c) :
    step ⟨running, Mode.normal, some i, cre, ta⟩ (charPress 'h') =
      some ⟨running, Mode.setHealth c.health, some i, cre, ta⟩ := by
  have hred : step ⟨running, Mode.normal, some i, cre, ta⟩ (charPress 'h') =
      match cre[i]? with
      | some creat => some ⟨running, Mode.setHealth creat.health, some i, cre, ta⟩
      | none => some ⟨running, Mode.normal, some i, cre, ta⟩ := rfl
  rw [hred, hc]

theorem step_entry_initiative (running : Bool) (i : Nat) (cre : List Creature) (ta : TextArea)
    (c : Creature) (hc : cre[i]? = some c) :
    step ⟨running, Mode.normal, some i, cre, ta⟩ (charPress 'i') =
      some ⟨running, Mode.setInitiative c.initiative, some i, cre, ta⟩ := by
  have hred : step ⟨running, Mode.normal, some i, cre, ta⟩ (charPress 'i') =
      match cre[i]? with
      | some creat => some ⟨running, Mode.setInitiative creat.initiative, some i, cre, ta⟩
      | none => some ⟨running, Mode.normal, some i, cre, ta⟩ := rfl
  rw [hred, hc]

theorem step_entry_plus (running : Bool) (i : Nat) (cre : List Creature) (ta : TextArea)
    (c : Creature) (hc : cre[i]? = some c) :
    step ⟨running, Mode.normal, some i, cre, ta⟩ (charPress '+') =
      some ⟨running, Mode.healthShift, some i,
        cre.set i { c with health_shift := some (HealthShift.increase 0) }, ta⟩ := by
  have hred : step ⟨running, Mode.normal, some i, cre, ta⟩ (charPress '+') =
      match cre[i]? with
      | none => some ⟨running, Mode.normal, some i, cre, ta⟩
      | some creature => some ⟨running, Mode.healthShift, some i,
          cre.set i { creature with health_shift := some (HealthShift.increase 0) }, ta⟩ := rfl
  rw [hred, hc]

theorem step_entry_minus (running : Bool) (i : Nat) (cre : List Creature) (ta : TextArea)
    (c : Creature) (hc : cre[i]? = some c) :
    step ⟨running, Mode.normal, some i, cre, ta⟩ (charPress '-') =
      some ⟨running, Mode.healthShift, some i,
        cre.set i { c with health_shift := some (HealthShift.decrease 0) }, ta⟩ := by
  have hred : step ⟨running, Mode.normal, some i, cre, ta⟩ (charPress '-') =
      match cre[i]? with
      | none => some ⟨running, Mode.normal, some i, cre, ta⟩
      | some creature => some ⟨running, Mode.healthShift, some i,
          cre.set i { creature with health_shift := some (HealthShift.decrease 0) }, ta⟩ := rfl
  rw [hred, hc]

theorem step_setHealth_esc (running : Bool) (old : Int) (i : Nat) (cre : List Creature)
    (ta : TextArea) (c : Creature) (hc : cre[i]? = some c) :
    step ⟨running, Mode.setHealth old, some i, cre, ta⟩ escPress =
      some ⟨running, Mode.normal, some i, cre.set i { c with health := old }, ta⟩ := by
  have hred : step ⟨running, Mode.setHealth old, some i, cre, ta⟩ escPress =
      match cre[i]? with
      | none => none
      | some creature =>
        some ⟨running, Mode.normal, some i, cre.set i { creature with health := old }, ta⟩ := rfl
  rw [hred, hc]

theorem step_setInitiative_esc (running : Bool) (old : Int) (i : Nat) (cre : List Creature)
    (ta : TextArea) (c : Creature) (hc : cre[i]? = some c) :
    step ⟨running, Mode.setInitiative old, some i, cre, ta⟩ escPress =
      some ⟨running, Mode.normal, some i, cre.set i { c with initiative := old }, ta⟩ := by
  have hred : step ⟨running, Mode.setInitiative old, some i, cre, ta⟩ escPress =
      match cre[i]? with
      | none => none
      | some creature =>
        some ⟨running, Mode.normal, some i, cre.set i { creature with initiative := old }, ta⟩ :=
      rfl
  rw [hred, hc]

theorem step_rename_esc (running : Bool) (old : String) (i : Nat) (cre : List Creature)
    (ta : TextArea) (c : Creature) (hc : cre[i]? = some c) :
    step ⟨running, Mode.rename old, some i, cre, ta⟩ escPress =
      some ⟨running, Mode.normal, some i, cre.set i { c with name := old }, ta⟩ := by
  have hred : step ⟨running, Mode.rename old, some i, cre, ta⟩ escPress =
      match cre[i]? with
      | none => none
      | some creature =>
        some ⟨running, Mode.normal, some i, cre.set i { creature with name := old }, ta⟩ := rfl
  rw [hred, hc]

theorem step_healthShift_esc (running : Bool) (i : Nat) (cre : List Creature)
    (ta : TextArea) (c : Creature) (sh : HealthShift)
    (hc : cre[i]? = some c) (hsh : c.health_shift = some sh) :
    step ⟨running, Mode.healthShift, some i, cre, ta⟩ escPress =
      some ⟨running, Mode.normal, some i, cre.set i { c with health_shift := none }, ta⟩ := by
  obtain ⟨nm, hp, hs, init, nts, cur⟩ := c
  simp only at hsh
  subst hsh
  have hred : step ⟨running, Mode.healthShift, some i, cre, ta⟩ escPress =
      match cre[i]? with
      | none => none
      | some creature =>
        (creature.health_shift.map fun s => u32ToI32 s.mag).bind fun _ =>
          some ⟨running, Mode.normal, some i,
            cre.set i { creature with health_shift := none }, ta⟩ := rfl
  rw [hred, hc]
  rfl

theorem runEvents_singleton (app : App) (ev : KeyEvent) :
    runEvents app [ev] = step app ev := by
  rw [runEvents_cons]
  cases step app ev <;> rfl

/-- C4: for each of the modes Rename, SetHealth, SetInitiative and HealthShift
(both directions), entering the mode from Normal with a validly selected
creature, performing any sequence of character/digit/backspace edit key
presses, and pressing Esc returns to exactly the starting state: the edited
field (and everything else) equals its value at mode entry. -/
theorem C4_cancel_roundtrip (e : EditEntry) (app : App) (i : Nat) (c : Creature)
    (evs : List KeyEvent)
    (hmode : app.mode = Mode.normal)
    (hsel : app.selected_creature = some i)
    (hc : app.creatures[i]? = some c)
    (hshift : c.health_shift = none)
    (hevs : ∀ ev ∈ evs, isEditKey ev = true) :
    runEvents app (charPress (editEntryChar e) :: (evs ++ [escPress])) = some app := by
  obtain ⟨running, mode, sel, cre, ta⟩ := app
  dsimp only at hmode hsel hc
  subst hmode
  subst hsel
  obtain ⟨nm, hp, hs, init, nts, cur⟩ := c
  dsimp only at hshift
  subst hshift
  have hlt : i < cre.length := getElem?_some_lt hc
  cases e with
  | healthKey =>
    dsimp only [editEntryChar]
    rw [runEvents_cons, step_entry_health running i cre ta _ hc, Option.some_bind]
    dsimp only
    rw [runEvents_append]
    obtain ⟨h', hrun⟩ := run_setHealth_editKeys running hp i cre ta _ evs hc hevs
    rw [hrun, Option.some_bind, runEvents_singleton]
    dsimp only
    have hc1 : (cre.set i ⟨nm, h', none, init, nts, cur⟩ : List Creature)[i]? =
        some ⟨nm, h', none, init, nts, cur⟩ := getElem?_set_self hlt
    rw [step_setHealth_esc running hp i _ ta _ hc1]
    dsimp only
    rw [List.set_set, set_of_getElem? hc]
  | initiativeKey =>
    dsimp only [editEntryChar]
    rw [runEvents_cons, step_entry_initiative running i cre ta _ hc, Option.some_bind]
    dsimp only
    rw [runEvents_append]
    obtain ⟨v', hrun⟩ := run_setInitiative_editKeys running init i cre ta _ evs hc hevs
    rw [hrun, Option.some_bind, runEvents_singleton]
    dsimp only
    have hc1 : (cre.set i ⟨nm, hp, none, v', nts, cur⟩ : List Creature)[i]? =
        some ⟨nm, hp, none, v', nts, cur⟩ := getElem?_set_self hlt
    rw [step_setInitiative_esc running init i _ ta _ hc1]
    dsimp only
    rw [List.set_set, set_of_getElem? hc]
  | renameKey =>
    dsimp only [editEntryChar]
    rw [runEvents_cons, step_entry_rename running i cre ta _ hc, Option.some_bind]
    dsimp only
    rw [runEvents_append]
    obtain ⟨n', hrun⟩ := run_rename_editKeys running nm i cre ta _ evs hc hevs
    rw [hrun, Option.some_bind, runEvents_singleton]
    dsimp only
    have hc1 : (cre.set i ⟨n', hp, none, init, nts, cur⟩ : List Creature)[i]? =
        some ⟨n', hp, none, init, nts, cur⟩ := getElem?_set_self hlt
    rw [step_rename_esc running nm i _ ta _ hc1]
    dsimp only
    rw [List.set_set, set_of_getElem? hc]
  | incShiftKey =>
    dsimp only [editEntryChar]
    rw [runEvents_cons, step_entry_plus running i cre ta _ hc, Option.some_bind]
    dsimp only
    rw [runEvents_append]
    have hc1 : (cre.set i ⟨nm, hp, some (HealthShift.increase 0), init, nts, cur⟩ :
        List Creature)[i]? = some ⟨nm, hp, some (HealthShift.increase 0), init, nts, cur⟩ :=
      getElem?_set_self hlt
    obtain ⟨m', hrun⟩ := run_healthShift_editKeys running i _ ta _
      (HealthShift.increase 0) evs hc1 rfl hevs
    rw [hrun, Option.some_bind, runEvents_singleton]
    dsimp only [HealthShift.setMag]
    have hc2 : ((cre.set i ⟨nm, hp, some (HealthShift.increase 0), init, nts, cur⟩).set i
        ⟨nm, hp, some (HealthShift.increase m'), init, nts, cur⟩ : List Creature)[i]? =
        some ⟨nm, hp, some (HealthShift.increase m'), init, nts, cur⟩ :=
      getElem?_set_self (by rw [List.length_set]; exact hlt)
    rw [step_healthShift_esc running i _ ta _ (HealthShift.increase m') hc2 rfl]
    dsimp only
    rw [List.set_set, List.set_set, set_of_getElem? hc]
  | decShiftKey =>
    dsimp only [editEntryChar]
    rw [runEvents_cons, step_entry_minus running i cre ta _ hc, Option.some_bind]
    dsimp only
    rw [runEvents_append]
    have hc1 : (cre.set i ⟨nm, hp, some (HealthShift.decrease 0), init, nts, cur⟩ :
        List Creature)[i]? = some ⟨nm, hp, some (HealthShift.decrease 0), init, nts, cur⟩ :=
      getElem?_set_self hlt
    obtain ⟨m', hrun⟩ := run_healthShift_editKeys running i _ ta _
      (HealthShift.decrease 0) evs hc1 rfl hevs
    rw [hrun, Option.some_bind, runEvents_singleton]
    dsimp only [HealthShift.setMag]
    have hc2 : ((cre.set i ⟨nm, hp, some (HealthShift.decrease 0), init, nts, cur⟩).set i
        ⟨nm, hp, some (HealthShift.decrease m'), init, nts, cur⟩ : List Creature)[i]? =
        some ⟨nm, hp, some (HealthShift.decrease m'), init, nts, cur⟩ :=
      getElem?_set_self (by rw [List.length_set]; exact hlt)
    rw [step_healthShift_esc running i _ ta _ (HealthShift.decrease m') hc2 rfl]
    dsimp only
    rw [List.set_set, List.set_set, set_of_getElem? hc]

/-- Witness for C4: on the demo roster, entering SetHealth on the first creature,
typing '1' and cancelling restores the exact initial state. -/
theorem C4_cancel_roundtrip_witness :
    runEvents (App.new true)
      (charPress (editEntryChar EditEntry.healthKey) :: ([charPress '1'] ++ [escPress])) =
      some (App.new true) :=
  C4_cancel_roundtrip EditEntry.healthKey (App.new true) 0
    ⟨"Goblin", 5, none, 0, "Very gobliny", (0, 0)⟩ [charPress '1'] rfl rfl rfl rfl
    (by decide)

/-- C2 counterexample: on the demo roster, pressing 'h' enters SetHealth for the
Goblin (stored health 5, snapshot 5 in the mode payload); the digit press '1'
then rewrites the stored health to 51 while the mode is still SetHealth — the
authoritative field does not keep its pre-edit value until confirm. -/
theorem C2_counterexample :
    ((App.new true).creatures[0]?).map Creature.health = some 5 ∧
    (runEvents (App.new true) [charPress 'h', charPress '1']).map
        (fun s => (s.mode, (s.creatures[0]?).map Creature.health)) =
      some (Mode.setHealth 5, some 51) := by
  constructor
  · rfl
  · decide

/-- C2 (amended): while a field editor is active, the in-progress value lives in
the creature's stored field itself: a digit press in SetHealth immediately
rewrites the stored health to the reparse of the digit-appended decimal string,
and a character press in Rename immediately rewrites the stored name; the
pre-edit snapshot is kept in the mode payload (unchanged by edit keys), and
cancel writes that snapshot back into the field. -/
theorem C2_live_field_edit (running : Bool) (old : Int) (oldName : String) (i : Nat)
    (cre : List Creature) (ta : TextArea) (c : Creature) (ch : Char)
    (hc : cre[i]? = some c) (hd : ch.isDigit = true) :
    (step ⟨running, Mode.setHealth old, some i, cre, ta⟩ (charPress ch) =
      some ⟨running, Mode.setHealth old, some i,
        cre.set i { c with health := (parseI32 ((toString c.health).push ch)).getD 0 }, ta⟩) ∧
    (step ⟨running, Mode.rename oldName, some i, cre, ta⟩ (charPress ch) =
      some ⟨running, Mode.rename oldName, some i,
        cre.set i { c with name := c.name.push ch }, ta⟩) ∧
    (step ⟨running, Mode.setHealth old, some i, cre, ta⟩ escPress =
      some ⟨running, Mode.normal, some i, cre.set i { c with health := old }, ta⟩) ∧
    (step ⟨running, Mode.rename oldName, some i, cre, ta⟩ escPress =
      some ⟨running, Mode.normal, some i, cre.set i { c with name := oldName }, ta⟩) := by
  obtain ⟨nm, hp, hs, init, nts, cur⟩ := c
  refine ⟨?_, ?_, ?_, ?_⟩
  · have hred : step ⟨running, Mode.setHealth old, some i, cre, ta⟩ (charPress ch) =
        match cre[i]? with
        | none => none
        | some creature =>
          if ch.isDigit then
            some ⟨running, Mode.setHealth old, some i,
              cre.set i { creature with
                health := (parseI32 ((toString creature.health).push ch)).getD 0 }, ta⟩
          else some ⟨running, Mode.setHealth old, some i, cre, ta⟩ := rfl
    rw [hred, hc]
    dsimp only
    rw [if_pos hd]
  · have hred : step ⟨running, Mode.rename oldName, some i, cre, ta⟩ (charPress ch) =
        match cre[i]? with
        | none => none
        | some creature =>
          some ⟨running, Mode.rename oldName, some i,
            cre.set i { creature with name := creature.name.push ch }, ta⟩ := rfl
    rw [hred, hc]
  · exact step_setHealth_esc running old i cre ta _ hc
  · exact step_rename_esc running oldName i cre ta _ hc

/-- Witness for C2 (amended) on the demo roster, digit '1' against the Goblin. -/
theorem C2_live_field_edit_witness :
    (step ⟨true, Mode.setHealth 5, some 0, (App.new true).creatures, newTextArea []⟩
        (charPress '1') =
      some ⟨true, Mode.setHealth 5, some 0,
        (App.new true).creatures.set 0
          { (⟨"Goblin", 5, none, 0, "Very gobliny", (0, 0)⟩ : Creature) with
            health := (parseI32 ((toString (5 : Int)).push '1')).getD 0 },
        newTextArea []⟩) ∧
    (step ⟨true, Mode.rename "Goblin", some 0, (App.new true).creatures, newTextArea []⟩
        (charPress '1') =
      some ⟨true, Mode.rename "Goblin", some 0,
        (App.new true).creatures.set 0
          { (⟨"Goblin", 5, none, 0, "Very gobliny", (0, 0)⟩ : Creature) with
            name := "Goblin".push '1' },
        newTextArea []⟩) ∧
    (step ⟨true, Mode.setHealth 5, some 0, (App.new true).creatures, newTextArea []⟩ escPress =
      some ⟨true, Mode.normal, some 0,
        (App.new true).creatures.set 0
          { (⟨"Goblin", 5, none, 0, "Very gobliny", (0, 0)⟩ : Creature) with health := 5 },
        newTextArea []⟩) ∧
    (step ⟨true, Mode.rename "Goblin", some 0, (App.new true).creatures, newTextArea []⟩
        escPress =
      some ⟨true, Mode.normal, some 0,
        (App.new true).creatures.set 0
          { (⟨"Goblin", 5, none, 0, "Very gobliny", (0, 0)⟩ : Creature) with name := "Goblin" },
        newTextArea []⟩) :=
  C2_live_field_edit true 5 "Goblin" 0 (App.new true).creatures (newTextArea [])
    ⟨"Goblin", 5, none, 0, "Very gobliny", (0, 0)⟩ '1' rfl rfl

theorem wrap32_eq_self {n : Int} (h : inI32Range n) : wrap32 n = n := by
  obtain ⟨h1, h2⟩ := h
  unfold wrap32
  omega

/-- C7: in HealthShift mode, Enter applies the signed magnitude onto the base
health (adding for increase, subtracting for decrease — exactly, whenever the
result fits in i32, and wrapped otherwise) and clears the pending-shift slot;
Esc clears the slot leaving health untouched; both return to Normal. -/
theorem C7_healthShift_commit (running : Bool) (i : Nat) (cre : List Creature)
    (ta : TextArea) (c : Creature) (sh : HealthShift)
    (hc : cre[i]? = some c) (hsh : c.health_shift = some sh) :
    (step ⟨running, Mode.healthShift, some i, cre, ta⟩ enterPress =
      some ⟨running, Mode.normal, some i,
        cre.set i { c with health := wrap32 (c.health + shiftDelta sh), health_shift := none },
        ta⟩) ∧
    (inI32Range (c.health + shiftDelta sh) →
      wrap32 (c.health + shiftDelta sh) = c.health + shiftDelta sh) ∧
    (step ⟨running, Mode.healthShift, some i, cre, ta⟩ escPress =
      some ⟨running, Mode.normal, some i, cre.set i { c with health_shift := none }, ta⟩) := by
  refine ⟨?_, fun h => wrap32_eq_self h, step_healthShift_esc running i cre ta c sh hc hsh⟩
  obtain ⟨nm, hp, hs, init, nts, cur⟩ := c
  simp only at hsh
  subst hsh
  have hred : step ⟨running, Mode.healthShift, some i, cre, ta⟩ enterPress =
      match cre[i]? with
      | none => none
      | some creature =>
        (creature.health_shift.map fun s => u32ToI32 s.mag).bind fun _ =>
          (match creature.health_shift with
           | some (HealthShift.increase mag) =>
             some { creature with
                    health := wrap32 (creature.health + u32ToI32 mag), health_shift := none }
           | some (HealthShift.decrease mag) =>
             some { creature with
                    health := wrap32 (creature.health - u32ToI32 mag), health_shift := none }
           | none => none).map
            fun c' => (⟨running, Mode.normal, some i, cre.set i c', ta⟩ : App) := rfl
  rw [hred, hc]
  cases sh with
  | increase m =>
    dsimp only [Option.map_some', Option.some_bind, shiftDelta]
  | decrease m =>
    dsimp only [Option.map_some', Option.some_bind, shiftDelta]
    rw [Int.sub_eq_add_neg]

/-- Witness for C7 at a one-creature roster with a pending increase of 3 onto health 10. -/
theorem C7_healthShift_commit_witness :
    (step ⟨true, Mode.healthShift, some 0,
        [⟨"X", 10, some (HealthShift.increase 3), 0, "", (0, 0)⟩], newTextArea []⟩ enterPress =
      some ⟨true, Mode.normal, some 0,
        [⟨"X", 10, some (HealthShift.increase 3), 0, "", (0, 0)⟩].set 0
          { (⟨"X", 10, some (HealthShift.increase 3), 0, "", (0, 0)⟩ : Creature) with
            health := wrap32 (10 + shiftDelta (HealthShift.increase 3)), health_shift := none },
        newTextArea []⟩) ∧
    (inI32Range (10 + shiftDelta (HealthShift.increase 3)) →
      wrap32 (10 + shiftDelta (HealthShift.increase 3)) =
        10 + shiftDelta (HealthShift.increase 3)) ∧
    (step ⟨true, Mode.healthShift, some 0,
        [⟨"X", 10, some (HealthShift.increase 3), 0, "", (0, 0)⟩], newTextArea []⟩ escPress =
      some ⟨true, Mode.normal, some 0,
        [⟨"X", 10, some (HealthShift.increase 3), 0, "", (0, 0)⟩].set 0
          { (⟨"X", 10, some (HealthShift.increase 3), 0, "", (0, 0)⟩ : Creature) with
            health_shift := none },
        newTextArea []⟩) :=
  C7_healthShift_commit true 0 [⟨"X", 10, some (HealthShift.increase 3), 0, "", (0, 0)⟩]
    (newTextArea []) ⟨"X", 10, some (HealthShift.increase 3), 0, "", (0, 0)⟩
    (HealthShift.increase 3) rfl rfl

/-- C8: in every numeric-edit mode a digit press appends the digit to the
decimal string of the current value and reparses it, an unparsable
(overflowing) string yields zero instead of rejecting the keystroke, and
backspace drops the last character with an empty string parsing to zero —
stated for SetHealth, SetInitiative and the HealthShift magnitude, together
with the concrete instances: digits 1,2,3 from value 0 give 123; one backspace
from value 5 gives 0; a digit push overflowing i32 resets the field to 0. -/
theorem C8_numeric_buffer (running : Bool) (old : Int) (i : Nat)
    (cre : List Creature) (ta : TextArea) (c : Creature) (ch : Char) (sh : HealthShift)
    (hc : cre[i]? = some c) (hd : ch.isDigit = true) (hsh : c.health_shift = some sh) :
    (step ⟨running, Mode.setHealth old, some i, cre, ta⟩ (charPress ch) =
      some ⟨running, Mode.setHealth old, some i,
        cre.set i { c with health := (parseI32 ((toString c.health).push ch)).getD 0 }, ta⟩) ∧
    (step ⟨running, Mode.setHealth old, some i, cre, ta⟩ backspacePress =
      some ⟨running, Mode.setHealth old, some i,
        cre.set i { c with
          health := (parseI32 (String.mk (toString c.health).data.dropLast)).getD 0 }, ta⟩) ∧
    (step ⟨running, Mode.setInitiative old, some i, cre, ta⟩ (charPress ch) =
      some ⟨running, Mode.setInitiative old, some i,
        cre.set i { c with
          initiative := (parseI32 ((toString c.initiative).push ch)).getD 0 }, ta⟩) ∧
    (step ⟨running, Mode.setInitiative old, some i, cre, ta⟩ backspacePress =
      some ⟨running, Mode.setInitiative old, some i,
        cre.set i { c with
          initiative := (parseI32 (String.mk (toString c.initiative).data.dropLast)).getD 0 },
        ta⟩) ∧
    (step ⟨running, Mode.healthShift, some i, cre, ta⟩ (charPress ch) =
      some ⟨running, Mode.healthShift, some i,
        cre.set i { c with
          health_shift := some (sh.setMag (i32ToU32
            ((parseI32 ((toString (u32ToI32 sh.mag)).push ch)).getD 0))) }, ta⟩) ∧
    (runEvents ⟨true, Mode.setHealth 0, some 0, [⟨"X", 0, none, 0, "", (0, 0)⟩],
        newTextArea []⟩ [charPress '1', charPress '2', charPress '3']).map
        (fun s => (s.creatures[0]?).map Creature.health) = some (some 123) ∧
    (step ⟨true, Mode.setHealth 5, some 0, [⟨"X", 5, none, 0, "", (0, 0)⟩],
        newTextArea []⟩ backspacePress).map
        (fun s => (s.creatures[0]?).map Creature.health) = some (some 0) ∧
    (step ⟨true, Mode.setHealth 300000000, some 0, [⟨"X", 300000000, none, 0, "", (0, 0)⟩],
        newTextArea []⟩ (charPress '0')).map
        (fun s => (s.creatures[0]?).map Creature.health) = some (some 0) ∧
    parseI32 "3000000000" = none := by
  obtain ⟨nm, hp, hs, init, nts, cur⟩ := c
  simp only at hsh
  subst hsh
  refine ⟨?_, ?_, ?_, ?_, ?_, by decide, by decide, by decide, by decide⟩
  · have hred : step ⟨running, Mode.setHealth old, some i, cre, ta⟩ (charPress ch) =
        match cre[i]? with
        | none => none
        | some creature =>
          if ch.isDigit then
            some ⟨running, Mode.setHealth old, some i,
              cre.set i { creature with
                health := (parseI32 ((toString creature.health).push ch)).getD 0 }, ta⟩
          else some ⟨running, Mode.setHealth old, some i, cre, ta⟩ := rfl
    rw [hred, hc]
    dsimp only
    rw [if_pos hd]
  · have hred : step ⟨running, Mode.setHealth old, some i, cre, ta⟩ backspacePress =
        match cre[i]? with
        | none => none
        | some creature =>
          some ⟨running, Mode.setHealth old, some i,
            cre.set i { creature with
              health := (parseI32 (String.mk (toString creature.health).data.dropLast)).getD 0 },
            ta⟩ := rfl
    rw [hred, hc]
  · have hred : step ⟨running, Mode.setInitiative old, some i, cre, ta⟩ (charPress ch) =
        match cre[i]? with
        | none => none
        | some creature =>
          if ch.isDigit then
            some ⟨running, Mode.setInitiative old, some i,
              cre.set i { creature with
                initiative := (parseI32 ((toString creature.initiative).push ch)).getD 0 }, ta⟩
          else some ⟨running, Mode.setInitiative old, some i, cre, ta⟩ := rfl
    rw [hred, hc]
    dsimp only
    rw [if_pos hd]
  · have hred : step ⟨running, Mode.setInitiative old, some i, cre, ta⟩ backspacePress =
        match cre[i]? with
        | none => none
        | some creature =>
          some ⟨running, Mode.setInitiative old, some i,
            cre.set i { creature with
              initiative :=
                (parseI32 (String.mk (toString creature.initiative).data.dropLast)).getD 0 },
            ta⟩ := rfl
    rw [hred, hc]
  · have hred : step ⟨running, Mode.healthShift, some i, cre, ta⟩ (charPress ch) =
        match cre[i]? with
        | none => none
        | some creature =>
          (creature.health_shift.map fun s => u32ToI32 s.mag).bind fun value =>
            if ch.isDigit then
              (creature.health_shift.map fun s =>
                  { creature with
                    health_shift := some (s.setMag (i32ToU32
                      ((parseI32 ((toString value).push ch)).getD 0))) }).map
                fun c' => (⟨running, Mode.healthShift, some i, cre.set i c', ta⟩ : App)
            else some ⟨running, Mode.healthShift, some i, cre, ta⟩ := rfl
    rw [hred, hc]
    dsimp only [Option.map_some', Option.some_bind]
    rw [if_pos hd]

/-- Witness for C8 on a one-creature roster with a pending shift, digit '7'. -/
theorem C8_numeric_buffer_witness :
    (step ⟨true, Mode.setHealth 5, some 0,
        [⟨"X", 5, some (HealthShift.increase 2), 0, "", (0, 0)⟩], newTextArea []⟩
        (charPress '7')).map (fun s => (s.creatures[0]?).map Creature.health) =
      some (some 57) ∧
    ('7' : Char).isDigit = true := by
  constructor
  · have h := (C8_numeric_buffer true 5 0
      [⟨"X", 5, some (HealthShift.increase 2), 0, "", (0, 0)⟩] (newTextArea [])
      ⟨"X", 5, some (HealthShift.increase 2), 0, "", (0, 0)⟩ '7'
      (HealthShift.increase 2) rfl rfl rfl).1
    rw [h]
    decide
  · decide

/-- C6: evaluation of the code at the failing input. In EditNotes — entered via
'j' then 'n' on the demo roster, so the text area holds the selected creature's
notes — a plain Enter press does not confirm: the mode stays EditNotes, the
roster is untouched, and the key is forwarded into the text area, which inserts
a line break; an alt-qualified Enter does exactly the same; only Esc leaves the
mode (with mode Normal afterwards).  The in-app banner for EditNotes reads
"Confirm: Enter (use alt to break lines), Cancel: Esc", so the handler
contradicts the app's own instructions. -/
theorem C6_enter_does_not_confirm :
    ∃ s, runEvents (App.new true) [charPress 'j', charPress 'n'] = some s ∧
      s.mode = Mode.editNotes ∧
      (∃ s2, step s enterPress = some s2 ∧ s2.mode = Mode.editNotes ∧
        s2.creatures = s.creatures ∧ s2.text_area = taInsertNewline s.text_area ∧
        s2.text_area.lines.length = s.text_area.lines.length + 1) ∧
      (∃ s3, step s ⟨KeyCode.enter, true, KeyEventKind.press⟩ = some s3 ∧
        s3.mode = Mode.editNotes ∧ s3.text_area = taInsertNewline s.text_area) ∧
      (∃ s4, step s escPress = some s4 ∧ s4.mode = Mode.normal) := by
  refine ⟨_, rfl, rfl, ⟨_, rfl, rfl, rfl, rfl, by decide⟩, ⟨_, rfl, rfl, rfl⟩, ⟨_, rfl, ?_⟩⟩
  decide

theorem editInv_of_nonedit {s : App} (h : isFieldEditMode s.mode = false) : EditInv s := by
  constructor
  · intro hh
    rw [h] at hh
    cases hh
  · intro hm
    rw [hm] at h
    simp [isFieldEditMode] at h

theorem editInv_mk (running : Bool) (m : Mode) (i : Nat) (cre : List Creature)
    (ta : TextArea) (hlt : i < cre.length) (hm : m ≠ Mode.healthShift) :
    EditInv ⟨running, m, some i, cre, ta⟩ :=
  ⟨fun _ => ⟨i, rfl, hlt⟩, fun hmm => absurd hmm hm⟩

theorem editInv_healthShift_mk (running : Bool) (i : Nat) (cre : List Creature)
    (ta : TextArea) (c : Creature) (hq : cre[i]? = some c)
    (hsome : c.health_shift.isSome = true) :
    EditInv ⟨running, Mode.healthShift, some i, cre, ta⟩ :=
  ⟨fun _ => ⟨i, rfl, getElem?_some_lt hq⟩, fun _ => ⟨i, c, rfl, hq, hsome⟩⟩

theorem stepNormal_preserves (running : Bool) (sel : Option Nat) (cre : List Creature)
    (ta : TextArea) (code : KeyCode) :
    ∃ s', stepNormal ⟨running, Mode.normal, sel, cre, ta⟩ code = some s' ∧ EditInv s' := by
  cases code with
  | esc => exact ⟨_, rfl, editInv_of_nonedit rfl⟩
  | enter => exact ⟨_, rfl, editInv_of_nonedit rfl⟩
  | backspace => exact ⟨_, rfl, editInv_of_nonedit rfl⟩
  | otherKey => exact ⟨_, rfl, editInv_of_nonedit rfl⟩
  | char c =>
    by_cases h1 : c = '?'
    · subst h1
      exact ⟨_, rfl, editInv_of_nonedit rfl⟩
    by_cases h2 : c = 's'
    · subst h2
      exact ⟨_, rfl, editInv_of_nonedit rfl⟩
    by_cases h3 : c = 'K'
    · subst h3
      exact ⟨_, rfl, editInv_of_nonedit (by rw [selectCreature_mode]; rfl)⟩
    by_cases h4 : c = 'k'
    · subst h4
      exact ⟨_, rfl, editInv_of_nonedit (by rw [selectCreature_mode]; rfl)⟩
    by_cases h5 : c = 'j'
    · subst h5
      exact ⟨_, rfl, editInv_of_nonedit (by rw [selectCreature_mode]; rfl)⟩
    by_cases h6 : c = 'J'
    · subst h6
      exact ⟨_, rfl, editInv_of_nonedit (by rw [selectCreature_mode]; rfl)⟩
    by_cases h7 : c = 'a'
    · subst h7
      refine ⟨_, rfl, fun _ => ⟨cre.length, ?_, ?_⟩, fun hm => ?_⟩
      · dsimp only
        rw [selectCreature_selected]
        congr 1
        simp
      · dsimp only
        rw [selectCreature_creatures]
        simp
      · dsimp only at hm
        cases hm
    by_cases h8 : c = 'r'
    · subst h8
      rcases sel with _ | i
      · exact ⟨_, rfl, editInv_of_nonedit rfl⟩
      · have hred : stepNormal ⟨running, Mode.normal, some i, cre, ta⟩ (KeyCode.char 'r') =
            match cre[i]? with
            | some creat => some ⟨running, Mode.rename creat.name, some i, cre, ta⟩
            | none => some ⟨running, Mode.normal, some i, cre, ta⟩ := rfl
        cases hq : cre[i]? with
        | none =>
          rw [hred, hq]
          exact ⟨_, rfl, editInv_of_nonedit rfl⟩
        | some creat =>
          rw [hred, hq]
          exact ⟨_, rfl, editInv_mk running _ i cre ta (getElem?_some_lt hq) (by simp)⟩
    by_cases h9 : c = 'n'
    · subst h9
      rcases sel with _ | i
      · exact ⟨_, rfl, editInv_of_nonedit rfl⟩
      · have hred : stepNormal ⟨running, Mode.normal, some i, cre, ta⟩ (KeyCode.char 'n') =
            if (cre[i]?).isSome then some ⟨running, Mode.editNotes, some i, cre, ta⟩
            else some ⟨running, Mode.normal, some i, cre, ta⟩ := rfl
        cases hq : cre[i]? with
        | none =>
          rw [hred, hq]
          exact ⟨_, rfl, editInv_of_nonedit rfl⟩
        | some creat =>
          rw [hred, hq]
          exact ⟨_, rfl, editInv_mk running _ i cre ta (getElem?_some_lt hq) (by simp)⟩
    by_cases h10 : c = 'c'
    · subst h10
      rcases sel with _ | i
      · exact ⟨_, rfl, editInv_of_nonedit rfl⟩
      · have hred : stepNormal ⟨running, Mode.normal, some i, cre, ta⟩ (KeyCode.char 'c') =
            match cre[i]? with
            | none => some ⟨running, Mode.normal, some i, cre, ta⟩
            | some hovered =>
              some ⟨running, Mode.normal, some i, listInsertAt cre (i + 1) hovered, ta⟩ := rfl
        cases hq : cre[i]? with
        | none =>
          rw [hred, hq]
          exact ⟨_, rfl, editInv_of_nonedit rfl⟩
        | some hov =>
          rw [hred, hq]
          exact ⟨_, rfl, editInv_of_nonedit rfl⟩
    by_cases h11 : c = 'd'
    · subst h11
      rcases sel with _ | i
      · exact ⟨_, rfl, editInv_of_nonedit rfl⟩
      · have hred : stepNormal ⟨running, Mode.normal, some i, cre, ta⟩ (KeyCode.char 'd') =
            match cre[i]? with
            | none => some ⟨running, Mode.normal, some i, cre, ta⟩
            | some _ =>
              if (cre.eraseIdx i).isEmpty then
                some ⟨running, Mode.normal, none, cre.eraseIdx i, newTextArea []⟩
              else if (cre.eraseIdx i).length = i then
                some (App.selectCreature
                  ⟨running, Mode.normal, some i, cre.eraseIdx i, ta⟩
                  ((cre.eraseIdx i).length - 1))
              else
                some (App.selectCreature
                  ⟨running, Mode.normal, some i, cre.eraseIdx i, ta⟩ i) := rfl
        cases hq : cre[i]? with
        | none =>
          rw [hred, hq]
          exact ⟨_, rfl, editInv_of_nonedit rfl⟩
        | some creat =>
          rw [hred, hq]
          by_cases hemp : (cre.eraseIdx i).isEmpty = true
          · rw [if_pos hemp]
            exact ⟨_, rfl, editInv_of_nonedit rfl⟩
          · rw [if_neg hemp]
            by_cases hlen : (cre.eraseIdx i).length = i
            · rw [if_pos hlen]
              exact ⟨_, rfl, editInv_of_nonedit (by rw [selectCreature_mode]; rfl)⟩
            · rw [if_neg hlen]
              exact ⟨_, rfl, editInv_of_nonedit (by rw [selectCreature_mode]; rfl)⟩
    by_cases h12 : c = 'h'
    · subst h12
      rcases sel with _ | i
      · exact ⟨_, rfl, editInv_of_nonedit rfl⟩
      · have hred : stepNormal ⟨running, Mode.normal, some i, cre, ta⟩ (KeyCode.char 'h') =
            match cre[i]? with
            | some creat => some ⟨running, Mode.setHealth creat.health, some i, cre, ta⟩
            | none => some ⟨running, Mode.normal, some i, cre, ta⟩ := rfl
        cases hq : cre[i]? with
        | none =>
          rw [hred, hq]
          exact ⟨_, rfl, editInv_of_nonedit rfl⟩
        | some creat =>
          rw [hred, hq]
          exact ⟨_, rfl, editInv_mk running _ i cre ta (getElem?_some_lt hq) (by simp)⟩
    by_cases h13 : c = 'i'
    · subst h13
      rcases sel with _ | i
      · exact ⟨_, rfl, editInv_of_nonedit rfl⟩
      · have hred : stepNormal ⟨running, Mode.normal, some i, cre, ta⟩ (KeyCode.char 'i') =
            match cre[i]? with
            | some creat => some ⟨running, Mode.setInitiative creat.initiative, some i, cre, ta⟩
            | none => some ⟨running, Mode.normal, some i, cre, ta⟩ := rfl
        cases hq : cre[i]? with
        | none =>
          rw [hred, hq]
          exact ⟨_, rfl, editInv_of_nonedit rfl⟩
        | some creat =>
          rw [hred, hq]
          exact ⟨_, rfl, editInv_mk running _ i cre ta (getElem?_some_lt hq) (by simp)⟩
    by_cases h14 : c = '-'
    · subst h14
      rcases sel with _ | i
      · exact ⟨_, rfl, editInv_of_nonedit rfl⟩
      · have hred : stepNormal ⟨running, Mode.normal, some i, cre, ta⟩ (KeyCode.char '-') =
            match cre[i]? with
            | none => some ⟨running, Mode.normal, some i, cre, ta⟩
            | some creature => some ⟨running, Mode.healthShift, some i,
                cre.set i { creature with health_shift := some (HealthShift.decrease 0) },
                ta⟩ := rfl
        cases hq : cre[i]? with
        | none =>
          rw [hred, hq]
          exact ⟨_, rfl, editInv_of_nonedit rfl⟩
        | some creature =>
          rw [hred, hq]
          exact ⟨_, rfl, editInv_healthShift_mk running i _ ta _
            (getElem?_set_self (getElem?_some_lt hq)) rfl⟩
    by_cases h15 : c = '+'
    · subst h15
      rcases sel with _ | i
      · exact ⟨_, rfl, editInv_of_nonedit rfl⟩
      · have hred : stepNormal ⟨running, Mode.normal, some i, cre, ta⟩ (KeyCode.char '+') =
            match cre[i]? with
            | none => some ⟨running, Mode.normal, some i, cre, ta⟩
            | some creature => some ⟨running, Mode.healthShift, some i,
                cre.set i { creature with health_shift := some (HealthShift.increase 0) },
                ta⟩ := rfl
        cases hq : cre[i]? with
        | none =>
          rw [hred, hq]
          exact ⟨_, rfl, editInv_of_nonedit rfl⟩
        | some creature =>
          rw [hred, hq]
          exact ⟨_, rfl, editInv_healthShift_mk running i _ ta _
            (getElem?_set_self (getElem?_some_lt hq)) rfl⟩
    simp only [stepNormal]
    rw [if_neg h1, if_neg h2, if_neg h3, if_neg h4, if_neg h5, if_neg h6, if_neg h7,
      if_neg h8, if_neg h9, if_neg h10, if_neg h11, if_neg h12, if_neg h13,
      if_neg h14, if_neg h15]
    exact ⟨_, rfl, editInv_of_nonedit rfl⟩

theorem step_preserves_editInv (s : App) (ev : KeyEvent) (h : EditInv s) :
    ∃ s', step s ev = some s' ∧ EditInv s' := by
  obtain ⟨running, mode, sel, cre, ta⟩ := s
  obtain ⟨code, alt, kind⟩ := ev
  cases kind with
  | otherKind =>
    cases mode <;> (cases code <;> exact ⟨_, rfl, h⟩)
  | press =>
    cases mode with
    | normal => exact stepNormal_preserves running sel cre ta code
    | help => cases code <;> exact ⟨_, rfl, editInv_of_nonedit rfl⟩
    | meta k =>
      cases code with
      | esc => exact ⟨_, rfl, editInv_of_nonedit rfl⟩
      | backspace => exact ⟨_, rfl, editInv_of_nonedit rfl⟩
      | otherKey => exact ⟨_, rfl, editInv_of_nonedit rfl⟩
      | enter =>
        have hred : step ⟨running, Mode.meta k, sel, cre, ta⟩
            ⟨KeyCode.enter, alt, KeyEventKind.press⟩ =
            if k = 0 then some ⟨running, Mode.normal, sel, cre, ta⟩
            else if k = 1 then some ⟨false, Mode.meta k, sel, cre, ta⟩
            else some ⟨running, Mode.meta k, sel, cre, ta⟩ := rfl
        by_cases h0 : k = 0
        · rw [hred, if_pos h0]
          exact ⟨_, rfl, editInv_of_nonedit rfl⟩
        · by_cases hk1 : k = 1
          · rw [hred, if_neg h0, if_pos hk1]
            exact ⟨_, rfl, editInv_of_nonedit rfl⟩
          · rw [hred, if_neg h0, if_neg hk1]
            exact ⟨_, rfl, editInv_of_nonedit rfl⟩
      | char c =>
        have hred : step ⟨running, Mode.meta k, sel, cre, ta⟩
            ⟨KeyCode.char c, alt, KeyEventKind.press⟩ =
            if c = 'k' ∨ c = 'j' then some ⟨running, Mode.meta (1 - k), sel, cre, ta⟩
            else some ⟨running, Mode.meta k, sel, cre, ta⟩ := rfl
        by_cases hc : c = 'k' ∨ c = 'j'
        · rw [hred, if_pos hc]
          exact ⟨_, rfl, editInv_of_nonedit rfl⟩
        · rw [hred, if_neg hc]
          exact ⟨_, rfl, editInv_of_nonedit rfl⟩
    | sortMode =>
      cases code with
      | esc => exact ⟨_, rfl, editInv_of_nonedit rfl⟩
      | backspace => exact ⟨_, rfl, editInv_of_nonedit rfl⟩
      | otherKey => exact ⟨_, rfl, editInv_of_nonedit rfl⟩
      | enter => exact ⟨_, rfl, editInv_of_nonedit rfl⟩
      | char c =>
        by_cases e1 : c = 'i'
        · subst e1
          exact ⟨_, rfl, editInv_of_nonedit rfl⟩
        by_cases e2 : c = 'I'
        · subst e2
          exact ⟨_, rfl, editInv_of_nonedit rfl⟩
        by_cases e3 : c = 'h'
        · subst e3
          exact ⟨_, rfl, editInv_of_nonedit rfl⟩
        by_cases e4 : c = 'H'
        · subst e4
          exact ⟨_, rfl, editInv_of_nonedit rfl⟩
        by_cases e5 : c = 'n'
        · subst e5
          exact ⟨_, rfl, editInv_of_nonedit rfl⟩
        by_cases e6 : c = 'N'
        · subst e6
          exact ⟨_, rfl, editInv_of_nonedit rfl⟩
        show ∃ s', stepSort ⟨running, Mode.sortMode, sel, cre, ta⟩ (KeyCode.char c)
          = some s' ∧ EditInv s'
        simp only [stepSort]
        rw [if_neg e1, if_neg e2, if_neg e3, if_neg e4, if_neg e5, if_neg e6]
        exact ⟨_, rfl, editInv_of_nonedit rfl⟩
    | rename old =>
      obtain ⟨i, hsel, hlt⟩ := h.1 rfl
      replace hsel : sel = some i := hsel
      replace hlt : i < cre.length := hlt
      subst hsel
      obtain ⟨c, hq⟩ : ∃ c, cre[i]? = some c := ⟨_, List.getElem?_eq_getElem hlt⟩
      cases code with
      | enter =>
        have hred : step ⟨running, Mode.rename old, some i, cre, ta⟩
            ⟨KeyCode.enter, alt, KeyEventKind.press⟩ =
            match cre[i]? with
            | none => none
            | some creature =>
              some ⟨running, Mode.normal, some i,
                cre.set i { creature with name := creature.name }, ta⟩ := rfl
        rw [hred, hq]
        exact ⟨_, rfl, editInv_of_nonedit rfl⟩
      | esc =>
        have hred : step ⟨running, Mode.rename old, some i, cre, ta⟩
            ⟨KeyCode.esc, alt, KeyEventKind.press⟩ =
            match cre[i]? with
            | none => none
            | some creature =>
              some ⟨running, Mode.normal, some i,
                cre.set i { creature with name := old }, ta⟩ := rfl
        rw [hred, hq]
        exact ⟨_, rfl, editInv_of_nonedit rfl⟩
      | otherKey =>
        have hred : step ⟨running, Mode.rename old, some i, cre, ta⟩
            ⟨KeyCode.otherKey, alt, KeyEventKind.press⟩ =
            match cre[i]? with
            | none => none
            | some creature =>
              some ⟨running, Mode.rename old, some i,
                cre.set i { creature with name := creature.name }, ta⟩ := rfl
        rw [hred, hq]
        exact ⟨_, rfl, editInv_mk running _ i _ ta
          (by rw [List.length_set]; exact hlt) (by simp)⟩
      | backspace =>
        obtain ⟨n', hstep⟩ :=
          step_rename_editKey running old i cre ta c ⟨KeyCode.backspace, alt, KeyEventKind.press⟩ hq rfl
        rw [hstep]
        exact ⟨_, rfl, editInv_mk running _ i _ ta
          (by rw [List.length_set]; exact hlt) (by simp)⟩
      | char ch =>
        obtain ⟨n', hstep⟩ :=
          step_rename_editKey running old i cre ta c ⟨KeyCode.char ch, alt, KeyEventKind.press⟩ hq rfl
        rw [hstep]
        exact ⟨_, rfl, editInv_mk running _ i _ ta
          (by rw [List.length_set]; exact hlt) (by simp)⟩
    | setHealth old =>
      obtain ⟨i, hsel, hlt⟩ := h.1 rfl
      replace hsel : sel = some i := hsel
      replace hlt : i < cre.length := hlt
      subst hsel
      obtain ⟨c, hq⟩ : ∃ c, cre[i]? = some c := ⟨_, List.getElem?_eq_getElem hlt⟩
      cases code with
      | enter =>
        have hred : step ⟨running, Mode.setHealth old, some i, cre, ta⟩
            ⟨KeyCode.enter, alt, KeyEventKind.press⟩ =
            match cre[i]? with
            | none => none
            | some creature =>
              some ⟨running, Mode.normal, some i, cre.set i creature, ta⟩ := rfl
        rw [hred, hq]
        exact ⟨_, rfl, editInv_of_nonedit rfl⟩
      | esc =>
        have hred : step ⟨running, Mode.setHealth old, some i, cre, ta⟩
            ⟨KeyCode.esc, alt, KeyEventKind.press⟩ =
            match cre[i]? with
            | none => none
            | some creature =>
              some ⟨running, Mode.normal, some i,
                cre.set i { creature with health := old }, ta⟩ := rfl
        rw [hred, hq]
        exact ⟨_, rfl, editInv_of_nonedit rfl⟩
      | otherKey =>
        have hred : step ⟨running, Mode.setHealth old, some i, cre, ta⟩
            ⟨KeyCode.otherKey, alt, KeyEventKind.press⟩ =
            match cre[i]? with
            | none => none
            | some creature =>
              some ⟨running, Mode.setHealth old, some i, cre, ta⟩ := rfl
        rw [hred, hq]
        exact ⟨_, rfl, editInv_mk running _ i cre ta hlt (by simp)⟩
      | backspace =>
        obtain ⟨h', hstep⟩ := step_setHealth_editKey running old i cre ta c
          ⟨KeyCode.backspace, alt, KeyEventKind.press⟩ hq rfl
        rw [hstep]
        exact ⟨_, rfl, editInv_mk running _ i _ ta
          (by rw [List.length_set]; exact hlt) (by simp)⟩
      | char ch =>
        obtain ⟨h', hstep⟩ := step_setHealth_editKey running old i cre ta c
          ⟨KeyCode.char ch, alt, KeyEventKind.press⟩ hq rfl
        rw [hstep]
        exact ⟨_, rfl, editInv_mk running _ i _ ta
          (by rw [List.length_set]; exact hlt) (by simp)⟩
    | setInitiative old =>
      obtain ⟨i, hsel, hlt⟩ := h.1 rfl
      replace hsel : sel = some i := hsel
      replace hlt : i < cre.length := hlt
      subst hsel
      obtain ⟨c, hq⟩ : ∃ c, cre[i]? = some c := ⟨_, List.getElem?_eq_getElem hlt⟩
      cases code with
      | enter =>
        have hred : step ⟨running, Mode.setInitiative old, some i, cre, ta⟩
            ⟨KeyCode.enter, alt, KeyEventKind.press⟩ =
            match cre[i]? with
            | none => none
            | some creature =>
              some ⟨running, Mode.normal, some i, cre.set i creature, ta⟩ := rfl
        rw [hred, hq]
        exact ⟨_, rfl, editInv_of_nonedit rfl⟩
      | esc =>
        have hred : step ⟨running, Mode.setInitiative old, some i, cre, ta⟩
            ⟨KeyCode.esc, alt, KeyEventKind.press⟩ =
            match cre[i]? with
            | none => none
            | some creature =>
              some ⟨running, Mode.normal, some i,
                cre.set i { creature with initiative := old }, ta⟩ := rfl
        rw [hred, hq]
        exact ⟨_, rfl, editInv_of_nonedit rfl⟩
      | otherKey =>
        have hred : step ⟨running, Mode.setInitiative old, some i, cre, ta⟩
            ⟨KeyCode.otherKey, alt, KeyEventKind.press⟩ =
            match cre[i]? with
            | none => none
            | some creature =>
              some ⟨running, Mode.setInitiative old, some i, cre, ta⟩ := rfl
        rw [hred, hq]
        exact ⟨_, rfl, editInv_mk running _ i cre ta hlt (by simp)⟩
      | backspace =>
        obtain ⟨v', hstep⟩ := step_setInitiative_editKey running old i cre ta c
          ⟨KeyCode.backspace, alt, KeyEventKind.press⟩ hq rfl
        rw [hstep]
        exact ⟨_, rfl, editInv_mk running _ i _ ta
          (by rw [List.length_set]; exact hlt) (by simp)⟩
      | char ch =>
        obtain ⟨v', hstep⟩ := step_setInitiative_editKey running old i cre ta c
          ⟨KeyCode.char ch, alt, KeyEventKind.press⟩ hq rfl
        rw [hstep]
        exact ⟨_, rfl, editInv_mk running _ i _ ta
          (by rw [List.length_set]; exact hlt) (by simp)⟩
    | healthShift =>
      obtain ⟨i, c, hsel, hq, hsome⟩ := h.2 rfl
      replace hsel : sel = some i := hsel
      replace hq : cre[i]? = some c := hq
      subst hsel
      have hlt : i < cre.length := getElem?_some_lt hq
      obtain ⟨sh, hsh⟩ : ∃ sh, c.health_shift = some sh := Option.isSome_iff_exists.mp hsome
      obtain ⟨nm, hp, hs, init, nts, cur⟩ := c
      simp only at hsh
      subst hsh
      cases code with
      | enter =>
        have hred : step ⟨running, Mode.healthShift, some i, cre, ta⟩
            ⟨KeyCode.enter, alt, KeyEventKind.press⟩ =
            match cre[i]? with
            | none => none
            | some creature =>
              (creature.health_shift.map fun s => u32ToI32 s.mag).bind fun _ =>
                (match creature.health_shift with
                 | some (HealthShift.increase mag) =>
                   some { creature with
                          health := wrap32 (creature.health + u32ToI32 mag),
                          health_shift := none }
                 | some (HealthShift.decrease mag) =>
                   some { creature with
                          health := wrap32 (creature.health - u32ToI32 mag),
                          health_shift := none }
                 | none => none).map
                  fun c' => (⟨running, Mode.normal, some i, cre.set i c', ta⟩ : App) := rfl
        rw [hred, hq]
        cases sh <;> exact ⟨_, rfl, editInv_of_nonedit rfl⟩
      | esc =>
        have hred : step ⟨running, Mode.healthShift, some i, cre, ta⟩
            ⟨KeyCode.esc, alt, KeyEventKind.press⟩ =
            match cre[i]? with
            | none => none
            | some creature =>
              (creature.health_shift.map fun s => u32ToI32 s.mag).bind fun _ =>
                some ⟨running, Mode.normal, some i,
                  cre.set i { creature with health_shift := none }, ta⟩ := rfl
        rw [hred, hq]
        exact ⟨_, rfl, editInv_of_nonedit rfl⟩
      | otherKey =>
        have hred : step ⟨running, Mode.healthShift, some i, cre, ta⟩
            ⟨KeyCode.otherKey, alt, KeyEventKind.press⟩ =
            match cre[i]? with
            | none => none
            | some creature =>
              (creature.health_shift.map fun s => u32ToI32 s.mag).bind fun _ =>
                some ⟨running, Mode.healthShift, some i, cre, ta⟩ := rfl
        rw [hred, hq]
        exact ⟨_, rfl, editInv_healthShift_mk running i cre ta _ hq rfl⟩
      | backspace =>
        obtain ⟨m', hstep⟩ := step_healthShift_editKey running i cre ta _ sh
          ⟨KeyCode.backspace, alt, KeyEventKind.press⟩ hq rfl rfl
        rw [hstep]
        exact ⟨_, rfl, editInv_healthShift_mk running i _ ta _
          (getElem?_set_self hlt) rfl⟩
      | char ch =>
        obtain ⟨m', hstep⟩ := step_healthShift_editKey running i cre ta _ sh
          ⟨KeyCode.char ch, alt, KeyEventKind.press⟩ hq rfl rfl
        rw [hstep]
        exact ⟨_, rfl, editInv_healthShift_mk running i _ ta _
          (getElem?_set_self hlt) rfl⟩
    | editNotes =>
      obtain ⟨i, hsel, hlt⟩ := h.1 rfl
      replace hsel : sel = some i := hsel
      replace hlt : i < cre.length := hlt
      subst hsel
      obtain ⟨c, hq⟩ : ∃ c, cre[i]? = some c := ⟨_, List.getElem?_eq_getElem hlt⟩
      cases code with
      | esc =>
        have hred : step ⟨running, Mode.editNotes, some i, cre, ta⟩
            ⟨KeyCode.esc, alt, KeyEventKind.press⟩ =
            match cre[i]? with
            | none => none
            | some creature =>
              some ⟨running, Mode.normal, some i,
                cre.set i { creature with
                  notes := String.intercalate "\n" ta.lines,
                  notes_cursor_pos := ta.cursor }, ta⟩ := rfl
        rw [hred, hq]
        exact ⟨_, rfl, editInv_of_nonedit rfl⟩
      | enter => exact ⟨_, rfl, editInv_mk running _ i cre _ hlt (by simp)⟩
      | backspace => exact ⟨_, rfl, editInv_mk running _ i cre _ hlt (by simp)⟩
      | char ch => exact ⟨_, rfl, editInv_mk running _ i cre _ hlt (by simp)⟩
      | otherKey => exact ⟨_, rfl, editInv_mk running _ i cre _ hlt (by simp)⟩

theorem runEvents_preserves_editInv (s : App) (evs : List KeyEvent) (h : EditInv s) :
    ∃ s', runEvents s evs = some s' ∧ EditInv s' := by
  induction evs generalizing s with
  | nil => exact ⟨s, runEvents_nil s, h⟩
  | cons ev evs ih =>
    obtain ⟨s1, hstep, h1⟩ := step_preserves_editInv s ev h
    obtain ⟨s', hrun, h'⟩ := ih s1 h1
    refine ⟨s', ?_, h'⟩
    rw [runEvents_cons, hstep]
    exact hrun

/-- C9: from either initial state of App::new, every sequence of key events is
processed without panicking (the result of the event fold is always `some`),
and whenever the reached state is in a field-edit mode (Rename, SetHealth,
SetInitiative, HealthShift, EditNotes), the selection is a valid roster index
(with the pending-shift slot present in HealthShift mode) — so the panic branch
in numeric_edit and the unwrap calls in the Rename and EditNotes handlers are
unreachable from the UI. -/
theorem C9_edit_modes_safe (b : Bool) (evs : List KeyEvent) :
    ∃ s', runEvents (App.new b) evs = some s' ∧ EditInv s' :=
  runEvents_preserves_editInv (App.new b) evs (editInv_of_nonedit rfl)
